import Mathlib

/-!
Shallow embedding of the scoutfs extended-attribute subsystem
(src/kmod/src/xattr.c) together with proofs about the claims of the
specification.  Pure C helpers become Lean functions on lists of
characters or bytes; the stateful multi-item protocols become explicit
state passing over a part-indexed item store; machine integers are
natural numbers with explicit reductions modulo 2^w where the C code
can wrap.  Constants and collaborator semantics that live in headers
not present in the repository snapshot (format.h, xattr.h, item.c) are
modelled from the specification and carry a doc comment saying so.
-/

namespace Scoutfs

/-- Error codes returned by the embedded functions, mirroring the
negative errno constants used in the C source (`efail` stands for a
generic injected resource failure such as -ENOSPC). -/
inductive Err where
  | einval | erange | e2big | eopnotsupp | eperm | enodata
  | eexist | eacces | enoent | eio | efail
  deriving DecidableEq, Repr

/-- Largest unsigned 64-bit value (U64_MAX). -/
def U64MAX : Nat := 18446744073709551615

/-- Largest unsigned 32-bit value (U32_MAX). -/
def U32MAX : Nat := 4294967295

/-- Largest signed 64-bit value (S64_MAX). -/
def S64MAX : Nat := 9223372036854775807

/-- Nanoseconds in one second (NSEC_PER_SEC). -/
def NSEC_PER_SEC : Nat := 1000000000

/-- Modulus of 64-bit arithmetic. -/
def P64 : Nat := 18446744073709551616

/-- Modelled from the spec: SCOUTFS_XATTR_MAX_TOTL_U64, the bounded
digit length of one u64 token in a totl name or value (format.h is not
in the snapshot; the spec only requires the bound to admit every
decimal u64 encoding). -/
def MAXTOTL : Nat := 22

/-- Modelled from the spec: SCOUTFS_XATTR_MAX_NAME_LEN, the bound on an
xattr name length (format.h is not in the snapshot; the name length is
stored in a byte, and the VFS bound is 255). -/
def MAXNAME : Nat := 255

/-- Modelled from the spec: SCOUTFS_XATTR_MAX_VAL_LEN, the bound on an
xattr value length (format.h is not in the snapshot; the value length
is stored in a little-endian 16-bit field). -/
def MAXVAL : Nat := 65535

/-- Numeric value of one character as a digit in the given base,
following the kernel `_parse_integer` digit scan: decimal digits, then
lower-case and upper-case hex letters, accepted only below the base. -/
def digitVal (base : Nat) (c : Char) : Option Nat :=
  let v? : Option Nat :=
    if '0' ≤ c ∧ c ≤ '9' then some (c.toNat - '0'.toNat)
    else if 'a' ≤ c ∧ c ≤ 'f' then some (c.toNat - 'a'.toNat + 10)
    else if 'A' ≤ c ∧ c ≤ 'F' then some (c.toNat - 'A'.toNat + 10)
    else none
  match v? with
  | some v => if v < base then some v else none
  | none => none

/-- Greedy digit scan of `_parse_integer`: consumes the longest run of
valid digits, returning the count of digits consumed, the exact
accumulated value, and the unconsumed remainder of the string. -/
def parse_digits (base : Nat) : List Char → Nat → Nat → Nat × Nat × List Char
  | [], cnt, acc => (cnt, acc, [])
  | c :: cs, cnt, acc =>
    match digitVal base c with
    | some d => parse_digits base cs (cnt + 1) (acc * base + d)
    | none => (cnt, acc, c :: cs)

/-- Base detection of `_parse_integer_fixup_radix` for base 0: a
leading "0x"/"0X" followed by a hex digit selects base 16 and skips the
prefix, any other leading '0' selects base 8, anything else decimal. -/
def fixupRadix (s : List Char) : Nat × List Char :=
  match s with
  | '0' :: rest =>
    match rest with
    | x :: r2 =>
      if (x = 'x' ∨ x = 'X') ∧ (digitVal 16 (r2.headD ' ')).isSome then (16, r2)
      else (8, '0' :: x :: r2)
    | [] => (8, ['0'])
  | _ => (10, s)

/-- Kernel `kstrtoull` with base 0: an optional leading '+', radix
detection, a nonempty digit run whose exact value must fit in 64 bits,
then optionally a single trailing newline and nothing else.  `none`
stands for either -EINVAL or -ERANGE, which the callers in xattr.c
treat alike. -/
def kstrtoull (s0 : List Char) : Option Nat :=
  let s1 := match s0 with
    | '+' :: r => r
    | _ => s0
  let br := fixupRadix s1
  let cvr := parse_digits br.1 br.2 0 0
  if cvr.1 = 0 then none
  else if U64MAX < cvr.2.1 then none
  else match cvr.2.2 with
    | [] => some cvr.2.1
    | ['\n'] => some cvr.2.1
    | _ => none

/-- Translation of `parse_totl_u64`: parse a u64 in any base from a
bounded-length field, forbidding the leading '+' and the trailing
newline that kstrtoull itself would allow. -/
def parse_totl_u64 (s : List Char) : Except Err Nat :=
  if s.length = 0 ∨ MAXTOTL + 1 ≤ s.length ∨ s.headD ' ' = '+' ∨ s.getLastD ' ' = '\n' then
    .error .einval
  else match kstrtoull s with
    | some v => .ok v
    | none => .error .einval

/-- Translation of `parse_worm_u32`: a `parse_totl_u64` token further
restricted to the unsigned 32-bit range. -/
def parse_worm_u32 (s : List Char) : Except Err Nat :=
  match parse_totl_u64 s with
  | .ok v => if U32MAX < v then .error .einval else .ok v
  | .error e => .error e

/-- Index of the first occurrence of a character, the kernel strnchr
helper restricted to a list (kernel string helpers are collaborators;
the length bound is the list length). -/
def strnchr_idx : List Char → Char → Option Nat
  | [], _ => none
  | c :: cs, t => if c = t then some 0 else (strnchr_idx cs t).map (· + 1)

/-- Translation of `parse_worm_timespec`: split the value at its first
dot, require the dot to be interior and unique, parse seconds as a u64
token and nanoseconds as a u32 token, then require seconds within the
signed 64-bit range and nanoseconds below one second. -/
def parse_worm_timespec (name : List Char) : Except Err (Nat × Nat) :=
  if name.length < 3 then .error .einval
  else
    match strnchr_idx name '.' with
    | none => .error .einval
    | some d =>
      if d = 0 ∨ d = name.length - 1 then .error .einval
      else if (strnchr_idx (name.drop (d + 1)) '.').isSome then .error .einval
      else
        match parse_totl_u64 (name.take d) with
        | .error e => .error e
        | .ok sec =>
          match parse_worm_u32 (name.drop (d + 1)) with
          | .error e => .error e
          | .ok nsec =>
            if S64MAX < sec ∨ NSEC_PER_SEC ≤ nsec then .error .einval
            else .ok (sec, nsec)

/-- Right-to-left scan of `parse_totl_key` over the reversed name.  The
C loop walks the name from its end, remembering in `end` where the
previously found dot was; here the characters seen since the last dot
are carried explicitly (in forward order) in `cur`, and the values
parsed so far (rightmost first) in `acc`. -/
def totl_scan_rev : List Char → List Char → List Nat → Except Err (List Nat)
  | [], _, acc => if acc.length = 3 then .ok acc else .error .einval
  | c :: rest, cur, acc =>
    if acc.length = 3 then .ok acc
    else if c = '.' then
      match parse_totl_u64 cur with
      | .error e => .error e
      | .ok v => totl_scan_rev rest [] (acc ++ [v])
    else totl_scan_rev rest (c :: cur) acc

/-- Translation of `parse_totl_key` composed with
`scoutfs_xattr_init_totl_key`: the last three dotted u64 tokens of the
name, un-reversed (the C code swaps elements 0 and 2 of the parse
order), become the (skxt_a, skxt_b, skxt_c) bucket key triple. -/
def parse_totl_key (name : List Char) : Except Err (Nat × Nat × Nat) :=
  match totl_scan_rev name.reverse [] [] with
  | .error e => .error e
  | .ok acc =>
    match acc with
    | [a, b, c] => .ok (c, b, a)
    | _ => .error .einval

/-- Translation of struct scoutfs_xattr_totl_val: the total and count
deltas, each a raw little-endian 64-bit payload kept here as its value
modulo 2^64 (signed deltas are stored in two's complement). -/
structure TotlVal where
  total : Nat
  count : Nat
  deriving DecidableEq, Repr

/-- Result code of a delta combine, mirroring SCOUTFS_DELTA_COMBINED,
SCOUTFS_DELTA_COMBINED_NULL and the -EIO size-mismatch error. -/
inductive DeltaRes where
  | err | combined | combinedNull
  deriving DecidableEq, Repr

/-- Translation of `scoutfs_xattr_combine_totl`: after a size check the
source deltas are added (64-bit wrapping) into the destination bucket,
and a resulting all-zero bucket reports the null combine code. -/
def scoutfs_xattr_combine_totl (dstLen srcLen : Nat) (dst src : TotlVal) :
    TotlVal × DeltaRes :=
  if srcLen ≠ 16 ∨ dstLen ≠ srcLen then (dst, .err)
  else
    let d : TotlVal := ⟨(dst.total + src.total) % P64, (dst.count + src.count) % P64⟩
    if d.total = 0 ∧ d.count = 0 then (d, .combinedNull)
    else (d, .combined)

/-- Modelled from the spec: struct scoutfs_xattr_prefix_tags (xattr.h
is not in the snapshot).  The spec calls the fields boolean-or-counted
flags; they are modelled as byte counters, matching the kernel
convention for such structs, so the C increment wraps modulo 256. -/
structure PrefixTags where
  hide : Nat
  srch : Nat
  totl : Nat
  worm : Nat
  deriving DecidableEq, Repr

/-- All-zero tag set produced by the initial memset. -/
def PrefixTags.zero : PrefixTags := ⟨0, 0, 0, 0⟩

/-- Whether any tag counter is nonzero, as tested by the capability
check in `scoutfs_xattr_set`. -/
def PrefixTags.any (t : PrefixTags) : Bool :=
  t.hide ≠ 0 ∨ t.srch ≠ 0 ∨ t.totl ≠ 0 ∨ t.worm ≠ 0

/-- Length of the reserved name space string "scoutfs.". -/
def PFXLEN : Nat := 8

/-- Length of one tag token such as "hide.". -/
def TAGLEN : Nat := 5

/-- Tag-consuming loop of `scoutfs_xattr_parse_tags`.  Each recognized
five-character token bumps its byte counter (an increment that wraps
to zero is rejected, and "worm." additionally requires format version
at least 2); an unrecognized head ends the loop, which is an error
when no tag was recognized at all.  The fuel argument only bounds the
recursion and never runs out when it starts at the name length plus
one, because every iteration consumes five characters. -/
def parse_tags_go (vers : Nat) : Nat → List Char → PrefixTags → Bool → Except Err PrefixTags
  | 0, _, _, _ => .error .einval
  | fuel + 1, l, t, found =>
    if l.take TAGLEN = "hide.".data then
      let c := (t.hide + 1) % 256
      if c = 0 then .error .einval
      else parse_tags_go vers fuel (l.drop TAGLEN) { t with hide := c } true
    else if l.take TAGLEN = "srch.".data then
      let c := (t.srch + 1) % 256
      if c = 0 then .error .einval
      else parse_tags_go vers fuel (l.drop TAGLEN) { t with srch := c } true
    else if l.take TAGLEN = "totl.".data then
      let c := (t.totl + 1) % 256
      if c = 0 then .error .einval
      else parse_tags_go vers fuel (l.drop TAGLEN) { t with totl := c } true
    else if l.take TAGLEN = "worm.".data then
      let c := (t.worm + 1) % 256
      if c = 0 ∨ vers < 2 then .error .einval
      else parse_tags_go vers fuel (l.drop TAGLEN) { t with worm := c } true
    else if found = false then .error .einval
    else .ok t

/-- Translation of `scoutfs_xattr_parse_tags`: a name too short to hold
the reserved name space, a tag token and one further character, or one
outside the reserved name space, yields the all-zero tag set with no
error; otherwise the tag loop runs on the remainder after the reserved
name space. -/
def scoutfs_xattr_parse_tags (vers : Nat) (name : List Char) : Except Err PrefixTags :=
  if name.length < PFXLEN + TAGLEN + 1 ∨ name.take PFXLEN ≠ "scoutfs.".data then
    .ok PrefixTags.zero
  else parse_tags_go vers (name.length + 1) (name.drop PFXLEN) PrefixTags.zero false

/-- Translation of `unknown_prefix`: true when the name lies in none of
the user, trusted, system, security or scoutfs name spaces. -/
def unknownPfx (name : List Char) : Bool :=
  ¬ (name.take 5 = "user.".data ∨ name.take 8 = "trusted.".data ∨
     name.take 7 = "system.".data ∨ name.take 9 = "security.".data ∨
     name.take 8 = "scoutfs.".data)

/-- Translation of `parse_worm_name`: the part of the name after its
last dot must be exactly "v1_expiration". -/
def parse_worm_name (name : List Char) : Except Err Unit :=
  if ('.' ∈ name) = false then .error .einval
  else
    let tailPart := (name.reverse.takeWhile (fun c => c ≠ '.')).reverse
    if tailPart = "v1_expiration".data then .ok () else .error .einval

/-- Outcome of the argument, tag, permission and existence gate of
`scoutfs_xattr_set`: an early error, the successful no-op short
circuit, or falling through to the multi-item mutation protocols. -/
inductive SetOut where
  | failed (e : Err)
  | okNoop
  | proceed
  deriving DecidableEq, Repr

/-- Inputs of `scoutfs_xattr_set` supplied by collaborators outside
this subsystem: the capability check, the on-disk format version, the
regular-file test, the inode worm barrier, and whether the lookup
found an existing xattr with the requested name. -/
structure SetCtx where
  capable : Bool
  vers : Nat
  isReg : Bool
  wormDenied : Bool
  found : Bool
  deriving DecidableEq, Repr

/-- Translation of the check sequence of `scoutfs_xattr_set` up to the
point where one of the three multi-item protocols is chosen: argument
bounds, flag consistency, name-space and tag parsing, capability and
worm constraints, totl key and worm value parsing, then the existence
constraint flags, the delete-of-nonexistent short circuit, and the
worm write barrier, in the order of the C source. -/
def scoutfs_xattr_set_check (ctx : SetCtx) (name : List Char)
    (value : Option (List Char)) (fCreate fReplace : Bool) : SetOut :=
  if MAXNAME < name.length then .failed .erange
  else if value.isSome ∧ MAXVAL < (value.getD []).length then .failed .e2big
  else if fCreate ∧ fReplace then .failed .einval
  else if unknownPfx name then .failed .eopnotsupp
  else match scoutfs_xattr_parse_tags ctx.vers name with
  | .error _ => .failed .einval
  | .ok tgs =>
    if tgs.any ∧ ctx.capable = false then .failed .eperm
    else if tgs.worm ≠ 0 ∧ tgs.hide = 0 then .failed .einval
    else match (if tgs.totl ≠ 0 then (parse_totl_key name).map (fun _ => ()) else .ok ()) with
    | .error e => .failed e
    | .ok _ =>
      match (if tgs.worm ≠ 0 then parse_worm_name name else .ok ()) with
      | .error _ => .failed .einval
      | .ok _ =>
        match (if tgs.worm ≠ 0 then
                 (match value with
                  | some v => (parse_worm_timespec v).map (fun _ => ())
                  | none => .ok ())
               else .ok ()) with
        | .error e => .failed e
        | .ok _ =>
          if ctx.isReg = false ∧ tgs.worm ≠ 0 then .failed .einval
          else if ctx.found = false ∧ fReplace then .failed .enodata
          else if ctx.found ∧ fCreate then .failed .eexist
          else if ctx.found = false ∧ value.isNone then .okNoop
          else if ctx.wormDenied then .failed .eacces
          else .proceed

/-- Translation of `scoutfs_removexattr`: a set call with no value and
the replace-only flag. -/
def scoutfs_removexattr_check (ctx : SetCtx) (name : List Char) : SetOut :=
  scoutfs_xattr_set_check ctx name none false true

/-- Event recorded by one item-store primitive call during a protocol
run; within one protocol run ino, name hash and id are fixed, so an
event only carries the part index. -/
inductive Ev where
  | dirty (part : Nat)
  | create (part : Nat)
  | update (part : Nat)
  | delete (part : Nat)
  deriving DecidableEq, Repr

/-- State of the item store restricted to one xattr's group of parts:
the stored bytes of each part index, which parts are dirtied in the
open transaction, and the trace of primitive calls performed so far. -/
structure XSt where
  store : Nat → Option (List Nat)
  dirty : Nat → Bool
  trace : List Ev

/-- Injected resource failures of the item-store primitives, indexed
by part number: a `true` entry makes the corresponding call fail, the
way an allocation or store write can fail in the kernel. -/
structure XEnv where
  dirtyFail : Nat → Bool
  createFail : Nat → Bool
  updateFail : Nat → Bool
  deleteFail : Nat → Bool

/-- Environment in which no primitive call fails. -/
def envOK : XEnv := ⟨fun _ => false, fun _ => false, fun _ => false, fun _ => false⟩

/-- Pointwise update of a part-indexed map. -/
def setPart (s : Nat → Option (List Nat)) (i : Nat) (v : Option (List Nat)) :
    Nat → Option (List Nat) :=
  fun j => if j = i then v else s j

/-- Pointwise update of the dirty set. -/
def setDirty (d : Nat → Bool) (i : Nat) (b : Bool) : Nat → Bool :=
  fun j => if j = i then b else d j

/-- Modelled from the spec: `scoutfs_item_dirty` (item.c is not in the
snapshot).  Dirtying an existing item reserves its mutation; it is
side-effect free on stored bytes and can fail cleanly. -/
def item_dirty (env : XEnv) (st : XSt) (i : Nat) : Except Err XSt :=
  if (st.store i).isNone then .error .enoent
  else if env.dirtyFail i then .error .efail
  else .ok { st with dirty := setDirty st.dirty i true,
                     trace := st.trace ++ [Ev.dirty i] }

/-- Modelled from the spec: `scoutfs_item_create` (item.c is not in the
snapshot).  Creation fails on an existing key or on a resource
failure; a created item is dirty in the open transaction. -/
def item_create (env : XEnv) (st : XSt) (i : Nat) (v : List Nat) : Except Err XSt :=
  if (st.store i).isSome then .error .eexist
  else if env.createFail i then .error .efail
  else .ok { store := setPart st.store i (some v),
             dirty := setDirty st.dirty i true,
             trace := st.trace ++ [Ev.create i] }

/-- Modelled from the spec: `scoutfs_item_update` (item.c is not in the
snapshot).  Updating replaces the bytes of an existing item and leaves
it dirty; it can fail on a resource failure. -/
def item_update (env : XEnv) (st : XSt) (i : Nat) (v : List Nat) : Except Err XSt :=
  if (st.store i).isNone then .error .enoent
  else if env.updateFail i then .error .efail
  else .ok { store := setPart st.store i (some v),
             dirty := setDirty st.dirty i true,
             trace := st.trace ++ [Ev.update i] }

/-- Modelled from the spec: `scoutfs_item_delete` (item.c is not in the
snapshot).  Deleting an already dirtied item is defined never to fail;
deleting a clean item may fail on a resource failure. -/
def item_delete (env : XEnv) (st : XSt) (i : Nat) : Except Err XSt :=
  if (st.store i).isNone then .error .enoent
  else if st.dirty i = false ∧ env.deleteFail i then .error .efail
  else .ok { st with store := setPart st.store i none,
                     trace := st.trace ++ [Ev.delete i] }

/-- Delete whose result the C caller ignores, as in the unwind loops. -/
def item_delete_ign (env : XEnv) (st : XSt) (i : Nat) : XSt :=
  match item_delete env st i with
  | .ok st1 => st1
  | .error _ => st

/-- Number of parts of a serialized xattr of the given byte length,
SCOUTFS_XATTR_NR_PARTS: the length divided by the part capacity,
rounded up. -/
def nrParts (ps bytes : Nat) : Nat := (bytes + ps - 1) / ps

/-- Bytes of part `i` of a serialized xattr, as copied by the create
and change loops: at offset i times the part capacity, at most one
part capacity of bytes. -/
def xslice (ps : Nat) (xat : List Nat) (i : Nat) : List Nat :=
  (xat.drop (i * ps)).take ps

/-- Descending unwind of `create_xattr_items`: delete parts i-1 down
to 0, ignoring each result as the C while loop does. -/
def unwind_del : XEnv → Nat → XSt → XSt
  | _, 0, st => st
  | env, i + 1, st => unwind_del env i (item_delete_ign env st i)

/-- Loop body of `create_xattr_items`, iterating over the parts still
to create: on a failed create, already written parts are deleted in
descending order before the error is surfaced. -/
def create_go (env : XEnv) (ps : Nat) (xat : List Nat) :
    Nat → Nat → XSt → XSt × Option Err
  | 0, _, st => (st, none)
  | k + 1, part, st =>
    match item_create env st part (xslice ps xat part) with
    | .error e => (unwind_del env part st, some e)
    | .ok st1 => create_go env ps xat k (part + 1) st1

/-- Translation of `create_xattr_items`: write the parts of the
serialized xattr in ascending order, cleaning up every created part if
any write fails.  The C while loop guarded by total < bytes performs
exactly one iteration per part. -/
def create_xattr_items (env : XEnv) (ps : Nat) (xat : List Nat) (st : XSt) :
    XSt × Option Err :=
  create_go env ps xat (nrParts ps xat.length) 0 st

/-- Ascending dirty loop: dirty `cnt` parts starting at index `i`,
stopping with the first error. -/
def dirty_asc (env : XEnv) : Nat → Nat → XSt → XSt × Option Err
  | _, 0, st => (st, none)
  | i, cnt + 1, st =>
    match item_dirty env st i with
    | .error e => (st, some e)
    | .ok st1 => dirty_asc env (i + 1) cnt st1

/-- Ascending checked delete loop: delete `cnt` parts starting at
index `i`, stopping with the first error as the C for loop does. -/
def del_asc (env : XEnv) : Nat → Nat → XSt → XSt × Option Err
  | _, 0, st => (st, none)
  | i, cnt + 1, st =>
    match item_delete env st i with
    | .error e => (st, some e)
    | .ok st1 => del_asc env (i + 1) cnt st1

/-- Ascending delete loop whose results the C caller ignores, used for
the dirtied trailing old parts and for unwinding created parts. -/
def del_asc_ign (env : XEnv) : Nat → Nat → XSt → XSt
  | _, 0, st => st
  | i, cnt + 1, st => del_asc_ign env (i + 1) cnt (item_delete_ign env st i)

/-- Translation of `delete_xattr_items`: dirty the additional existing
old parts 1..P-1, aborting with no deletion on failure, then delete
parts 0..P-1 in ascending order. -/
def delete_xattr_items (env : XEnv) (nr_parts : Nat) (st : XSt) : XSt × Option Err :=
  match dirty_asc env 1 (nr_parts - 1) st with
  | (st1, some e) => (st1, some e)
  | (st1, none) => del_asc env 0 nr_parts st1

/-- Ascending create loop of `change_xattr_items` for the net-new
parts past the old boundary; on failure it reports the failing part
index so the caller can unwind exactly the parts created before it. -/
def create_rng (env : XEnv) (ps : Nat) (xat : List Nat) :
    Nat → Nat → XSt → XSt × Option (Err × Nat)
  | _, 0, st => (st, none)
  | i, cnt + 1, st =>
    match item_create env st i (xslice ps xat i) with
    | .error e => (st, some (e, i))
    | .ok st1 => create_rng env ps xat (i + 1) cnt st1

/-- Descending update loop of `change_xattr_items`: update parts n-1
down to 0 with the new bytes, stopping with the first error. -/
def update_desc (env : XEnv) (ps : Nat) (xat : List Nat) :
    Nat → XSt → XSt × Option Err
  | 0, st => (st, none)
  | i + 1, st =>
    match item_update env st i (xslice ps xat i) with
    | .error e => (st, some e)
    | .ok st1 => update_desc env ps xat i st1

/-- Translation of `change_xattr_items`: dirty the old parts, create
the net-new parts past the old boundary, overwrite the overlapping
range highest index first, then delete the dirtied old parts past the
new boundary; any error unwinds exactly the newly created parts in
ascending order before being surfaced. -/
def change_xattr_items (env : XEnv) (ps : Nat) (new_xat : List Nat)
    (new_parts old_parts : Nat) (st : XSt) : XSt × Option Err :=
  match dirty_asc env 0 old_parts st with
  | (st1, some e) => (st1, some e)
  | (st1, none) =>
    match create_rng env ps new_xat old_parts (new_parts - old_parts) st1 with
    | (st2, some (e, failedPart)) =>
      (del_asc_ign env old_parts (failedPart - old_parts) st2, some e)
    | (st2, none) =>
      match update_desc env ps new_xat (min old_parts new_parts) st2 with
      | (st3, some e) =>
        (del_asc_ign env old_parts (new_parts - old_parts) st3, some e)
      | (st3, none) =>
        (del_asc_ign env new_parts (old_parts - new_parts) st3, none)

/-- Dirty events of a trace, in order. -/
def dirtiesOf (tr : List Ev) : List Nat :=
  tr.filterMap (fun e => match e with | Ev.dirty i => some i | _ => none)

/-- Create events of a trace, in order. -/
def createsOf (tr : List Ev) : List Nat :=
  tr.filterMap (fun e => match e with | Ev.create i => some i | _ => none)

/-- Update events of a trace, in order. -/
def updatesOf (tr : List Ev) : List Nat :=
  tr.filterMap (fun e => match e with | Ev.update i => some i | _ => none)

/-- Delete events of a trace, in order. -/
def deletesOf (tr : List Ev) : List Nat :=
  tr.filterMap (fun e => match e with | Ev.delete i => some i | _ => none)

/-- Item key inside one inode's xattr zone: the name hash, the
disambiguating id and the part index, compared lexicographically as in
struct scoutfs_key. -/
structure IKey where
  h : Nat
  id : Nat
  p : Nat
  deriving DecidableEq, Repr

/-- Lexicographic order on xattr item keys. -/
def keyLe (a b : IKey) : Bool :=
  decide (a.h < b.h ∨ (a.h = b.h ∧ (a.id < b.id ∨ (a.id = b.id ∧ a.p ≤ b.p))))

/-- Iteration bound used by `get_next_xattr`: hash U32_MAX, id
U64_MAX, part 0, as built by its second init_xattr_key call. -/
def lastKey : IKey := ⟨U32MAX, U64MAX, 0⟩

/-- Modelled from the spec: `scoutfs_item_next` (item.c is not in the
snapshot).  The store keeps items in ascending key order, and next
returns the first item at or after the query key and at most the
bound, copying at most the remaining buffer capacity of its bytes. -/
def item_next (store : List (IKey × List Nat)) (q last : IKey) (cap : Nat) :
    Option (IKey × List Nat) :=
  match store.find? (fun e => keyLe q e.1 && keyLe e.1 last) with
  | none => none
  | some kd => some (kd.1, kd.2.take cap)

/-- Modelled from the spec: byte count of the header of struct
scoutfs_xattr (name length, value length, reserved padding; format.h
is not in the snapshot, so the header is fixed at four bytes: one name
length byte, two little-endian value length bytes, one pad byte). -/
def HDRLEN : Nat := 4

/-- Serialization of a logical xattr into the byte buffer that the
multi-part items slice up: the header followed by name then value. -/
def serializeX (name value : List Nat) : List Nat :=
  [name.length, value.length % 256, value.length / 256, 0] ++ name ++ value

/-- Name length field decoded from the first bytes of part 0. -/
def nameLenOf (d : List Nat) : Nat := d.getD 0 0

/-- Value length field decoded from the first bytes of part 0. -/
def valLenOf (d : List Nat) : Nat := d.getD 1 0 + 256 * d.getD 2 0

/-- Part-0 header consistency check of `get_next_xattr`: the copied
bytes must cover the header, the header fields must be within bounds,
and when the stored name could match the query name the copied bytes
must cover the stored name. -/
def hdrBad (qlen ret : Nat) (d : List Nat) : Bool :=
  decide (ret < HDRLEN ∨
    (nameLenOf d ≤ qlen ∧ ret < HDRLEN + nameLenOf d) ∨
    MAXNAME < nameLenOf d ∨ MAXVAL < valLenOf d)

/-- Translation of `xattr_names_equal` applied to a part-0 buffer:
lengths must match and then the stored name bytes must match. -/
def namesEq (qname : List Nat) (d : List Nat) : Bool :=
  decide (nameLenOf d = qname.length ∧ (d.drop HDRLEN).take (nameLenOf d) = qname)

/-- Modelled from the spec: the crc32c name hash (crc32c is a kernel
collaborator).  Only determinism and the 32-bit range of the hash are
relied on, so any fixed function of the name bytes serves. -/
def xhash (name : List Nat) : Nat :=
  name.foldl (fun a c => (a * 31 + c) % 4294967296) 1

/-- Loop of `get_next_xattr` in name-lookup mode: walk items from the
query position; a missing next item with a nonzero expected part, a
part index different from the expected one, and a bad part-0 header
are consistency faults (-EIO); a part-0 hash mismatch ends the search
as not found; a part-0 name mismatch advances to the next id; a match
fixes the last part from the header, accumulates the copied bytes and
continues through the parts.  The fuel argument only bounds the
recursion; `none` means it ran out. -/
def get_next_go (store : List (IKey × List Nat)) (ps : Nat) (qname : List Nat)
    (qhash B : Nat) :
    Nat → Nat → Nat → Nat → Nat → List Nat → Option (Except Err (IKey × List Nat))
  | 0, _, _, _, _, _ => none
  | fuel + 1, kh, kid, part, lastp, buf =>
    match item_next store ⟨kh, kid, part⟩ lastKey (B - buf.length) with
    | none => some (if 0 < part then .error .eio else .error .enoent)
    | some (fk, data) =>
      let ret := data.length
      if fk.p ≠ part then some (.error .eio)
      else if part = 0 ∧ hdrBad qname.length ret data then some (.error .eio)
      else if part = 0 ∧ 0 < qname.length ∧ fk.h ≠ qhash then some (.error .enoent)
      else if part = 0 ∧ 0 < qname.length ∧ namesEq qname data = false then
        get_next_go store ps qname qhash B fuel fk.h (fk.id + 1) 0 lastp buf
      else
        let lastp1 := if part = 0 ∧ 0 < qname.length then
          nrParts ps (HDRLEN + nameLenOf data + valLenOf data) - 1 else lastp
        let buf1 := buf ++ data
        if buf1.length = B ∨ part = lastp1 then some (.ok (fk, buf1))
        else get_next_go store ps qname qhash B fuel fk.h fk.id (part + 1) lastp1 buf1

/-- Translation of `get_next_xattr` in name-lookup mode, as called by
`scoutfs_getxattr`: the caller buffer must at least cover the header
and the query name, the name hash seeds the query key at id 0, and the
loop walks the store. -/
def get_next_named (store : List (IKey × List Nat)) (ps B fuel : Nat)
    (qname : List Nat) : Option (Except Err (IKey × List Nat)) :=
  if B < HDRLEN + qname.length then some (.error .einval)
  else get_next_go store ps qname (xhash qname) B fuel (xhash qname) 0 0 0 []

/-- Store fragment holding the listed part indices of one xattr group
at hash `h` and id 0, each with its slice of the serialized bytes. -/
def mkIdx (h : Nat) (ps : Nat) (xat : List Nat) (idxs : List Nat) :
    List (IKey × List Nat) :=
  idxs.map (fun i => (⟨h, 0, i⟩, xslice ps xat i))

theorem combine_totl_eq (dst src : TotlVal) :
    scoutfs_xattr_combine_totl 16 16 dst src =
      (⟨(dst.total + src.total) % P64, (dst.count + src.count) % P64⟩,
       if (dst.total + src.total) % P64 = 0 ∧ (dst.count + src.count) % P64 = 0
       then DeltaRes.combinedNull else DeltaRes.combined) := by
  simp only [scoutfs_xattr_combine_totl]
  norm_num
  split <;> rfl

/-- C7: combining two totl deltas into a bucket in either order yields
the same bucket state (pairwise 64-bit addition), and a combine whose
resulting bucket is exactly (0, 0) reports the elidable null code
while any other result reports the ordinary combined code. -/
theorem c7_combine_totl_comm_null :
    (∀ dst a b : TotlVal,
      (scoutfs_xattr_combine_totl 16 16 (scoutfs_xattr_combine_totl 16 16 dst a).1 b).1 =
      (scoutfs_xattr_combine_totl 16 16 (scoutfs_xattr_combine_totl 16 16 dst b).1 a).1) ∧
    (∀ dst src : TotlVal,
      (scoutfs_xattr_combine_totl 16 16 dst src).2 =
        (if (scoutfs_xattr_combine_totl 16 16 dst src).1.total = 0 ∧
            (scoutfs_xattr_combine_totl 16 16 dst src).1.count = 0
         then DeltaRes.combinedNull else DeltaRes.combined)) := by
  constructor
  · intro dst a b
    simp only [combine_totl_eq, Nat.mod_add_mod]
    rw [show dst.total + a.total + b.total = dst.total + b.total + a.total from by ring,
        show dst.count + a.count + b.count = dst.count + b.count + a.count from by ring]
  · intro dst src
    simp only [combine_totl_eq]

/-- C5: the tag parser accepts the repeated tag token sequence of the
name "scoutfs.hide.hide.n", yielding a hide counter of two with no
error, because the C repetition test only fires when the byte counter
wraps to zero; the repository's own manual page states that a repeated
tag must return an error. -/
theorem c5_repeated_tag_accepted :
    scoutfs_xattr_parse_tags 2 "scoutfs.hide.hide.n".data =
      .ok ⟨2, 0, 0, 0⟩ := by
  rfl


theorem strnchr_idx_none_of_not_mem {l : List Char} {t : Char} (h : t ∉ l) :
    strnchr_idx l t = none := by
  induction l with
  | nil => rfl
  | cons c cs ih =>
    simp only [strnchr_idx]
    rw [if_neg (by rintro rfl; exact h (List.mem_cons_self ..)),
        ih (fun hm => h (List.mem_cons_of_mem _ hm))]
    rfl

theorem strnchr_idx_append_left {xs : List Char} (ys : List Char) {t : Char}
    (h : t ∉ xs) :
    strnchr_idx (xs ++ ys) t = (strnchr_idx ys t).map (· + xs.length) := by
  induction xs with
  | nil => simp
  | cons c cs ih =>
    have hnc : ¬ c = t := by rintro rfl; exact h (List.mem_cons_self ..)
    have hcs : t ∉ cs := fun hm => h (List.mem_cons_of_mem _ hm)
    show (if c = t then some 0 else (strnchr_idx (cs ++ ys) t).map (· + 1)) = _
    rw [if_neg hnc, ih hcs]
    cases strnchr_idx ys t with
    | none => rfl
    | some v => simp only [Option.map_some', Option.some.injEq, List.length_cons]; omega

theorem strnchr_idx_split {l : List Char} {t : Char} {i : Nat}
    (h : strnchr_idx l t = some i) :
    l.take i ++ t :: l.drop (i + 1) = l ∧ t ∉ l.take i := by
  induction l generalizing i with
  | nil => exact Option.noConfusion h
  | cons c cs ih =>
    by_cases hc : c = t
    · have h0 : i = 0 := by
        have : strnchr_idx (c :: cs) t = some 0 := by
          show (if c = t then some 0 else _) = some 0
          rw [if_pos hc]
        rw [this] at h
        exact (Option.some.injEq ..).mp h.symm
      subst h0; subst hc
      simp
    · have hstep : strnchr_idx (c :: cs) t = (strnchr_idx cs t).map (· + 1) := by
        show (if c = t then some 0 else _) = _
        rw [if_neg hc]
      rw [hstep] at h
      match hm : strnchr_idx cs t with
      | none => rw [hm] at h; exact Option.noConfusion h
      | some i2 =>
        rw [hm] at h
        simp only [Option.map_some', Option.some.injEq] at h
        obtain ⟨h1, h2⟩ := ih hm
        subst h
        refine ⟨by simpa using h1, ?_⟩
        simp only [List.take_succ_cons, List.mem_cons, not_or]
        exact ⟨fun he => hc he.symm, h2⟩

theorem strnchr_idx_isSome_of_mem {l : List Char} {t : Char} (h : t ∈ l) :
    (strnchr_idx l t).isSome = true := by
  induction l with
  | nil => exact absurd h (List.not_mem_nil t)
  | cons c cs ih =>
    show (if c = t then some 0 else (strnchr_idx cs t).map (· + 1)).isSome = true
    by_cases hc : c = t
    · rw [if_pos hc]; rfl
    · rw [if_neg hc]
      have := ih (by
        rcases List.mem_cons.mp h with h1 | h2
        · exact absurd h1.symm hc
        · exact h2)
      cases hm : strnchr_idx cs t with
      | none => rw [hm] at this; exact absurd this (by simp)
      | some v => rfl

theorem parse_totl_u64_ok_ne_nil {s : List Char} {v : Nat}
    (h : parse_totl_u64 s = .ok v) : s ≠ [] := by
  intro he
  subst he
  simp [parse_totl_u64] at h

theorem worm_build {sTok nTok : List Char} {sec nsec : Nat}
    (hs : '.' ∉ sTok) (hn : '.' ∉ nTok)
    (hps : parse_totl_u64 sTok = .ok sec) (hsec : sec ≤ S64MAX)
    (hpn : parse_totl_u64 nTok = .ok nsec) (hnsec : nsec < NSEC_PER_SEC) :
    parse_worm_timespec (sTok ++ '.' :: nTok) = .ok (sec, nsec) := by
  have hsne := parse_totl_u64_ok_ne_nil hps
  have hnne := parse_totl_u64_ok_ne_nil hpn
  have hslen : 0 < sTok.length := List.length_pos.mpr hsne
  have hnlen : 0 < nTok.length := List.length_pos.mpr hnne
  have hone : strnchr_idx ('.' :: nTok) '.' = some 0 := by
    show (if ('.' : Char) = '.' then some 0 else _) = some 0
    rw [if_pos rfl]
  have hdropall : (sTok ++ '.' :: nTok).drop (sTok.length + 1) = nTok := by
    rw [← List.drop_drop, List.drop_left]
    simp
  have h32 : ¬ U32MAX < nsec := by
    unfold U32MAX
    unfold NSEC_PER_SEC at hnsec
    omega
  have hpn32 : parse_worm_u32 nTok = .ok nsec := by
    unfold parse_worm_u32
    simp only [hpn]
    rw [if_neg h32]
  unfold parse_worm_timespec
  rw [if_neg (show ¬ (sTok ++ '.' :: nTok).length < 3 by
    simp only [List.length_append, List.length_cons]; omega)]
  rw [strnchr_idx_append_left _ hs, hone]
  simp only [Option.map_some', Nat.zero_add, hdropall,
    strnchr_idx_none_of_not_mem hn, List.take_left, hps, hpn32,
    Option.isSome_none, Bool.false_eq_true, if_false]
  rw [if_neg (show ¬ (sTok.length = 0 ∨ sTok.length = (sTok ++ '.' :: nTok).length - 1) by
    simp only [List.length_append, List.length_cons]; omega)]
  rw [if_neg (show ¬ (S64MAX < sec ∨ NSEC_PER_SEC ≤ nsec) by push_neg; exact ⟨hsec, by omega⟩)]

theorem worm_inv {name : List Char} {sec nsec : Nat}
    (h : parse_worm_timespec name = .ok (sec, nsec)) :
    ∃ sTok nTok, name = sTok ++ '.' :: nTok ∧
      '.' ∉ sTok ∧ '.' ∉ nTok ∧
      parse_totl_u64 sTok = .ok sec ∧ sec ≤ S64MAX ∧
      parse_totl_u64 nTok = .ok nsec ∧ nsec < NSEC_PER_SEC := by
  unfold parse_worm_timespec at h
  split at h
  · exact Except.noConfusion h
  split at h
  · exact Except.noConfusion h
  next d hd =>
  obtain ⟨hsplit, hnotin⟩ := strnchr_idx_split hd
  split at h
  · exact Except.noConfusion h
  next hd0 =>
  split at h
  · exact Except.noConfusion h
  next hdot2 =>
  split at h
  next e hs => exact Except.noConfusion h
  next sv hs =>
  split at h
  next e hn => exact Except.noConfusion h
  next nv hn =>
  split at h
  · exact Except.noConfusion h
  next hrange =>
  cases h
  push_neg at hrange
  refine ⟨name.take d, name.drop (d + 1), hsplit.symm, hnotin, ?_, hs, hrange.1, ?_, hrange.2⟩
  · intro hmem
    exact hdot2 (strnchr_idx_isSome_of_mem hmem)
  · unfold parse_worm_u32 at hn
    split at hn
    next v2 hs2 =>
      split at hn
      · exact Except.noConfusion hn
      · cases hn; exact hs2
    next e hs2 => exact Except.noConfusion hn

/-- C8: the WORM timestamp parser accepts exactly the strings made of
a seconds token and a nanoseconds token around a single dot, where
each token is a sign-free, newline-free u64 field in the sense of
`parse_totl_u64`, the seconds value fits the signed 64-bit range and
the nanoseconds value is below one second; in particular it accepts
"1700000000.500000000" and rejects a leading plus, a trailing newline,
a second dot, and a nanoseconds overflow. -/
theorem c8_worm_timespec_charn :
    (∀ (name : List Char) (sec nsec : Nat),
      parse_worm_timespec name = .ok (sec, nsec) ↔
        ∃ sTok nTok, name = sTok ++ '.' :: nTok ∧
          '.' ∉ sTok ∧ '.' ∉ nTok ∧
          parse_totl_u64 sTok = .ok sec ∧ sec ≤ S64MAX ∧
          parse_totl_u64 nTok = .ok nsec ∧ nsec < NSEC_PER_SEC) ∧
    parse_worm_timespec "1700000000.500000000".data = .ok (1700000000, 500000000) ∧
    parse_worm_timespec "+1.0".data = .error .einval ∧
    parse_worm_timespec "1.0\n".data = .error .einval ∧
    parse_worm_timespec "1.2.3".data = .error .einval ∧
    parse_worm_timespec "1.1000000000".data = .error .einval := by
  refine ⟨?_, by rfl, by rfl, by rfl, by rfl, by rfl⟩
  intro name sec nsec
  constructor
  · exact worm_inv
  · rintro ⟨sTok, nTok, rfl, hs, hn, hps, hsec, hpn, hnsec⟩
    exact worm_build hs hn hps hsec hpn hnsec

theorem rev_dot (x y : List Char) :
    (x ++ '.' :: y).reverse = y.reverse ++ '.' :: x.reverse := by
  simp

theorem totl_scan_rev_done {acc : List Nat} (h : acc.length = 3)
    (l cur : List Char) : totl_scan_rev l cur acc = .ok acc := by
  cases l with
  | nil => show (if acc.length = 3 then _ else _) = _; rw [if_pos h]
  | cons c rest => show (if acc.length = 3 then _ else _) = _; rw [if_pos h]

theorem totl_scan_cons_skip {a : Char} (ha : ¬ a = '.') {acc : List Nat}
    (hacc : ¬ acc.length = 3) (rest cur : List Char) :
    totl_scan_rev (a :: rest) cur acc = totl_scan_rev rest (a :: cur) acc := by
  show (if acc.length = 3 then _ else if a = '.' then _ else _) = _
  rw [if_neg hacc, if_neg ha]

theorem totl_scan_cons_dot {acc : List Nat} (hacc : ¬ acc.length = 3)
    (rest cur : List Char) :
    totl_scan_rev ('.' :: rest) cur acc =
      (match parse_totl_u64 cur with
       | .error e => .error e
       | .ok v => totl_scan_rev rest [] (acc ++ [v])) := by
  show (if acc.length = 3 then _ else if ('.' : Char) = '.' then _ else _) = _
  rw [if_neg hacc, if_pos rfl]

theorem totl_scan_skip {t : List Char} (hd : '.' ∉ t) :
    ∀ (rest cur : List Char) (acc : List Nat), ¬ acc.length = 3 →
      totl_scan_rev (t.reverse ++ rest) cur acc = totl_scan_rev rest (t ++ cur) acc := by
  induction t with
  | nil => intro rest cur acc _; rfl
  | cons a t2 ih =>
    intro rest cur acc hacc
    have ha : ¬ a = '.' := by rintro rfl; exact hd (List.mem_cons_self ..)
    have ht2 : '.' ∉ t2 := fun hm => hd (List.mem_cons_of_mem _ hm)
    rw [List.reverse_cons, List.append_assoc, List.singleton_append]
    rw [ih ht2 (a :: rest) cur acc hacc]
    rw [totl_scan_cons_skip ha hacc rest (t2 ++ cur)]
    rfl

theorem totl_scan_inv :
    ∀ (l cur : List Char) (acc res : List Nat),
      totl_scan_rev l cur acc = .ok res →
      (acc.length = 3 ∧ res = acc) ∨
      (¬ acc.length = 3 ∧ ∃ t rest v, l = t.reverse ++ '.' :: rest ∧ '.' ∉ t ∧
        parse_totl_u64 (t ++ cur) = .ok v ∧
        totl_scan_rev rest [] (acc ++ [v]) = .ok res) := by
  intro l
  induction l with
  | nil =>
    intro cur acc res h
    by_cases hacc : acc.length = 3
    · rw [totl_scan_rev_done hacc] at h
      cases h
      exact Or.inl ⟨hacc, rfl⟩
    · have : totl_scan_rev [] cur acc = .error .einval := by
        show (if acc.length = 3 then _ else _) = _
        rw [if_neg hacc]
      rw [this] at h
      exact Except.noConfusion h
  | cons c rest ih =>
    intro cur acc res h
    by_cases hacc : acc.length = 3
    · rw [totl_scan_rev_done hacc] at h
      cases h
      exact Or.inl ⟨hacc, rfl⟩
    · by_cases hc : c = '.'
      · subst hc
        rw [totl_scan_cons_dot hacc] at h
        refine Or.inr ⟨hacc, [], rest, ?_⟩
        match hp : parse_totl_u64 cur with
        | .error e => rw [hp] at h; exact Except.noConfusion h
        | .ok v =>
          rw [hp] at h
          exact ⟨v, rfl, by simp, by simp [hp], h⟩
      · rw [totl_scan_cons_skip hc hacc] at h
        rcases ih (c :: cur) acc res h with ⟨h3, _⟩ | ⟨_, t2, rest2, v, heq, hnot, hp, hcont⟩
        · exact absurd h3 hacc
        · refine Or.inr ⟨hacc, t2 ++ [c], rest2, v, ?_, ?_, ?_, hcont⟩
          · rw [heq, List.reverse_append]
            rfl
          · intro hm
            rcases List.mem_append.mp hm with hm1 | hm2
            · exact hnot hm1
            · rcases List.mem_singleton.mp hm2 with rfl
              exact hc rfl
          · rw [List.append_assoc, List.singleton_append]
            exact hp

theorem totl_key_build {p t0 t1 t2 : List Char} {v0 v1 v2 : Nat}
    (h0 : '.' ∉ t0) (h1 : '.' ∉ t1) (h2 : '.' ∉ t2)
    (hp0 : parse_totl_u64 t0 = .ok v0) (hp1 : parse_totl_u64 t1 = .ok v1)
    (hp2 : parse_totl_u64 t2 = .ok v2) :
    parse_totl_key (p ++ '.' :: t0 ++ '.' :: t1 ++ '.' :: t2) = .ok (v0, v1, v2) := by
  unfold parse_totl_key
  rw [show (p ++ '.' :: t0 ++ '.' :: t1 ++ '.' :: t2).reverse =
      t2.reverse ++ '.' :: (t1.reverse ++ '.' :: (t0.reverse ++ '.' :: p.reverse)) from by
    simp]
  rw [totl_scan_skip h2 _ [] [] (by simp)]
  rw [totl_scan_cons_dot (by simp) _ _]
  simp only [List.append_nil, hp2, List.nil_append, List.singleton_append]
  rw [totl_scan_skip h1 _ [] [v2] (by simp)]
  rw [totl_scan_cons_dot (by simp) _ _]
  simp only [List.append_nil, hp1, List.singleton_append, List.cons_append, List.nil_append]
  rw [totl_scan_skip h0 _ [] [v2, v1] (by simp)]
  rw [totl_scan_cons_dot (by simp) _ _]
  simp only [List.append_nil, hp0, List.singleton_append, List.cons_append, List.nil_append]
  rw [totl_scan_rev_done (by simp) p.reverse []]

theorem totl_key_inv {name : List Char} {k : Nat × Nat × Nat}
    (h : parse_totl_key name = .ok k) :
    ∃ p t0 t1 t2, name = p ++ '.' :: t0 ++ '.' :: t1 ++ '.' :: t2 ∧
      '.' ∉ t0 ∧ '.' ∉ t1 ∧ '.' ∉ t2 ∧
      parse_totl_u64 t0 = .ok k.1 ∧ parse_totl_u64 t1 = .ok k.2.1 ∧
      parse_totl_u64 t2 = .ok k.2.2 := by
  unfold parse_totl_key at h
  split at h
  · exact Except.noConfusion h
  next acc hscan =>
  rcases totl_scan_inv _ _ _ _ hscan with ⟨h3, _⟩ | ⟨_, tA, restA, vA, heqA, hnA, hpA, hcontA⟩
  · simp at h3
  rcases totl_scan_inv _ _ _ _ hcontA with ⟨h3, _⟩ | ⟨_, tB, restB, vB, heqB, hnB, hpB, hcontB⟩
  · simp at h3
  rcases totl_scan_inv _ _ _ _ hcontB with ⟨h3, _⟩ | ⟨_, tC, restC, vC, heqC, hnC, hpC, hcontC⟩
  · simp at h3
  rcases totl_scan_inv _ _ _ _ hcontC with ⟨_, hres⟩ | ⟨hne, _⟩
  · subst hres
    split at h
    next a b c habc =>
      cases h
      have hA := List.append_nil tA ▸ hpA
      have hB := List.append_nil tB ▸ hpB
      have hC := List.append_nil tC ▸ hpC
      have habc2 := habc
      simp at habc2
      obtain ⟨rfl, rfl, rfl⟩ := habc2
      refine ⟨restC.reverse, tC, tB, tA, ?_, hnC, hnB, hnA, hC, hB, hA⟩
      have : name.reverse =
          (restC.reverse ++ '.' :: tC ++ '.' :: tB ++ '.' :: tA).reverse := by
        rw [heqA, heqB, heqC]
        simp
      exact List.reverse_injective this
    next hne2 => exact Except.noConfusion h
  · simp at hne

/-- C6: deriving the totl bucket key succeeds exactly on the names
ending in three dotted u64 tokens, and then yields the three values in
declared order, un-reversing the right-to-left parse; a name whose
last three dotted fields do not all parse as such tokens is rejected
with a parse error. -/
theorem c6_totl_key_charn (name : List Char) (k : Nat × Nat × Nat) :
    parse_totl_key name = .ok k ↔
      ∃ p t0 t1 t2, name = p ++ '.' :: t0 ++ '.' :: t1 ++ '.' :: t2 ∧
        '.' ∉ t0 ∧ '.' ∉ t1 ∧ '.' ∉ t2 ∧
        parse_totl_u64 t0 = .ok k.1 ∧ parse_totl_u64 t1 = .ok k.2.1 ∧
        parse_totl_u64 t2 = .ok k.2.2 := by
  constructor
  · exact totl_key_inv
  · rintro ⟨p, t0, t1, t2, rfl, h0, h1, h2, hp0, hp1, hp2⟩
    exact totl_key_build h0 h1 h2 hp0 hp1 hp2

/-- Witness for C6 at a concrete totl name. -/
theorem c6_totl_key_witness :
    parse_totl_key "scoutfs.totl.10.20.30".data = .ok (10, 20, 30) :=
  (c6_totl_key_charn "scoutfs.totl.10.20.30".data (10, 20, 30)).mpr
    ⟨"scoutfs.totl".data, "10".data, "20".data, "30".data, rfl,
     by decide, by decide, by decide, rfl, rfl, rfl⟩

/-- Witness for C8 at a concrete timestamp value. -/
theorem c8_worm_timespec_witness : parse_worm_timespec "7.8".data = .ok (7, 8) :=
  (c8_worm_timespec_charn.1 "7.8".data 7 8).mpr
    ⟨"7".data, "8".data, rfl, by decide, by decide, rfl, by decide, rfl, by decide⟩

theorem parse_tags_short {name : List Char} (vers : Nat)
    (hlen : name.length < PFXLEN + TAGLEN + 1) :
    scoutfs_xattr_parse_tags vers name = .ok PrefixTags.zero := by
  unfold scoutfs_xattr_parse_tags
  rw [if_pos (Or.inl hlen)]

theorem parse_tags_unrecognized {name : List Char} (vers : Nat)
    (hpfx : name.take PFXLEN = "scoutfs.".data)
    (hlen : PFXLEN + TAGLEN + 1 ≤ name.length)
    (h1 : (name.drop PFXLEN).take TAGLEN ≠ "hide.".data)
    (h2 : (name.drop PFXLEN).take TAGLEN ≠ "srch.".data)
    (h3 : (name.drop PFXLEN).take TAGLEN ≠ "totl.".data)
    (h4 : (name.drop PFXLEN).take TAGLEN ≠ "worm.".data) :
    scoutfs_xattr_parse_tags vers name = .error .einval := by
  unfold scoutfs_xattr_parse_tags
  rw [if_neg (by push_neg; exact ⟨by omega, hpfx⟩)]
  show parse_tags_go vers (name.length + 1) (name.drop PFXLEN) PrefixTags.zero false = _
  simp only [parse_tags_go]
  rw [if_neg h1, if_neg h2, if_neg h3, if_neg h4]
  simp

/-- C10: a name carrying the reserved "scoutfs." leading bytes but too
short to hold the reserved span, one tag token and one more character
parses to the all-false tag set with no error, and the set gate then
treats it independently of the administrative capability; the
reserved-with-no-purpose rejection fires only from the minimum length
of fourteen characters on. -/
theorem c10_short_reserved_names :
    (∀ (vers : Nat) (name : List Char),
      name.take PFXLEN = "scoutfs.".data → name.length < PFXLEN + TAGLEN + 1 →
      scoutfs_xattr_parse_tags vers name = .ok PrefixTags.zero) ∧
    (∀ (vers : Nat) (name : List Char),
      name.take PFXLEN = "scoutfs.".data → PFXLEN + TAGLEN + 1 ≤ name.length →
      (name.drop PFXLEN).take TAGLEN ≠ "hide.".data →
      (name.drop PFXLEN).take TAGLEN ≠ "srch.".data →
      (name.drop PFXLEN).take TAGLEN ≠ "totl.".data →
      (name.drop PFXLEN).take TAGLEN ≠ "worm.".data →
      scoutfs_xattr_parse_tags vers name = .error .einval) ∧
    (∀ (ctx : SetCtx) (b : Bool) (name : List Char) (value : Option (List Char))
       (fCreate fReplace : Bool),
      name.take PFXLEN = "scoutfs.".data → name.length < PFXLEN + TAGLEN + 1 →
      scoutfs_xattr_set_check { ctx with capable := b } name value fCreate fReplace =
        scoutfs_xattr_set_check ctx name value fCreate fReplace) := by
  refine ⟨fun vers name _ hlen => parse_tags_short vers hlen,
          fun vers name hpfx hlen h1 h2 h3 h4 =>
            parse_tags_unrecognized vers hpfx hlen h1 h2 h3 h4,
          fun ctx b name value fC fR hpfx hlen => ?_⟩
  unfold scoutfs_xattr_set_check
  simp only [parse_tags_short _ hlen]
  simp [PrefixTags.any, PrefixTags.zero]

/-- Witness for C10 at a concrete short reserved name. -/
theorem c10_short_reserved_witness :
    scoutfs_xattr_parse_tags 2 "scoutfs.hide".data = .ok PrefixTags.zero :=
  c10_short_reserved_names.1 2 "scoutfs.hide".data rfl (by decide)

/-- C4 counterexample: removing an extended attribute that does not
exist returns the not-found error ENODATA, not a successful no-op,
because the remove entry point passes the replace-only flag and the
existence-constraint check fires before the delete-of-nonexistent
short circuit. -/
theorem c4_remove_nonexistent_cex :
    scoutfs_removexattr_check ⟨false, 2, true, false, false⟩ "user.foo".data =
      .failed .enodata := by
  rfl

set_option maxHeartbeats 1000000 in
/-- C4 amended: a remove of a nonexistent attribute always returns an
error, never the successful no-op and never a mutation; with otherwise
valid arguments the error is exactly ENODATA; the successful no-op
short circuit applies only to a valueless set call without the
replace-only flag. -/
theorem c4_remove_nonexistent_amended :
    (∀ (ctx : SetCtx) (name : List Char), ctx.found = false →
      ∃ e, scoutfs_removexattr_check ctx name = .failed e) ∧
    (∀ (ctx : SetCtx) (name : List Char) (t : PrefixTags),
      ctx.found = false →
      name.length ≤ MAXNAME →
      unknownPfx name = false →
      scoutfs_xattr_parse_tags ctx.vers name = .ok t →
      (t.any = true → ctx.capable = true) →
      ¬ (t.worm ≠ 0 ∧ t.hide = 0) →
      (t.totl ≠ 0 → ∃ k, parse_totl_key name = .ok k) →
      (t.worm ≠ 0 → parse_worm_name name = .ok ()) →
      (t.worm ≠ 0 → ctx.isReg = true) →
      scoutfs_removexattr_check ctx name = .failed .enodata) ∧
    (∀ (ctx : SetCtx) (name : List Char) (t : PrefixTags),
      ctx.found = false →
      name.length ≤ MAXNAME →
      unknownPfx name = false →
      scoutfs_xattr_parse_tags ctx.vers name = .ok t →
      (t.any = true → ctx.capable = true) →
      ¬ (t.worm ≠ 0 ∧ t.hide = 0) →
      (t.totl ≠ 0 → ∃ k, parse_totl_key name = .ok k) →
      (t.worm ≠ 0 → parse_worm_name name = .ok ()) →
      (t.worm ≠ 0 → ctx.isReg = true) →
      scoutfs_xattr_set_check ctx name none false false = .okNoop) := by
  refine ⟨?_, ?_, ?_⟩
  · intro ctx name hf
    unfold scoutfs_removexattr_check scoutfs_xattr_set_check
    repeat' first
      | exact ⟨_, rfl⟩
      | split
    all_goals simp_all
  · intro ctx name t hf hlen hupfx hparse hcap hwh htot hwname hreg
    have e1 : (if t.totl ≠ 0 then (parse_totl_key name).map (fun _ => ()) else Except.ok ())
        = Except.ok () := by
      split
      · next ht =>
        obtain ⟨k, hk⟩ := htot ht
        rw [hk]
        rfl
      · rfl
    have e2 : (if t.worm ≠ 0 then parse_worm_name name else Except.ok ()) = Except.ok () := by
      split
      · next hw => exact hwname hw
      · rfl
    have e3 : (if t.worm ≠ 0 then
          (match (none : Option (List Char)) with
           | some v => (parse_worm_timespec v).map (fun _ => ())
           | none => Except.ok ())
        else Except.ok ()) = Except.ok () := by
      split <;> rfl
    unfold scoutfs_removexattr_check scoutfs_xattr_set_check
    rw [if_neg (Nat.not_lt.mpr hlen)]
    rw [if_neg (show ¬((none : Option (List Char)).isSome = true ∧
          MAXVAL < ((none : Option (List Char)).getD []).length) from by simp)]
    rw [if_neg (show ¬((false : Bool) = true ∧ (true : Bool) = true) from by simp)]
    rw [if_neg (show ¬ unknownPfx name = true from by simp [hupfx])]
    simp only [hparse]
    rw [if_neg (show ¬(t.any = true ∧ ctx.capable = false) from by
      rintro ⟨ha, hc⟩
      rw [hcap ha] at hc
      exact Bool.noConfusion hc)]
    rw [if_neg hwh]
    simp only [e1, e2, e3]
    rw [if_neg (show ¬(ctx.isReg = false ∧ t.worm ≠ 0) from by
      rintro ⟨h1, h2⟩
      rw [hreg h2] at h1
      exact Bool.noConfusion h1)]
    simp [hf]
  · intro ctx name t hf hlen hupfx hparse hcap hwh htot hwname hreg
    have e1 : (if t.totl ≠ 0 then (parse_totl_key name).map (fun _ => ()) else Except.ok ())
        = Except.ok () := by
      split
      · next ht =>
        obtain ⟨k, hk⟩ := htot ht
        rw [hk]
        rfl
      · rfl
    have e2 : (if t.worm ≠ 0 then parse_worm_name name else Except.ok ()) = Except.ok () := by
      split
      · next hw => exact hwname hw
      · rfl
    have e3 : (if t.worm ≠ 0 then
          (match (none : Option (List Char)) with
           | some v => (parse_worm_timespec v).map (fun _ => ())
           | none => Except.ok ())
        else Except.ok ()) = Except.ok () := by
      split <;> rfl
    unfold scoutfs_xattr_set_check
    rw [if_neg (Nat.not_lt.mpr hlen)]
    rw [if_neg (show ¬((none : Option (List Char)).isSome = true ∧
          MAXVAL < ((none : Option (List Char)).getD []).length) from by simp)]
    rw [if_neg (show ¬((false : Bool) = true ∧ (false : Bool) = true) from by simp)]
    rw [if_neg (show ¬ unknownPfx name = true from by simp [hupfx])]
    simp only [hparse]
    rw [if_neg (show ¬(t.any = true ∧ ctx.capable = false) from by
      rintro ⟨ha, hc⟩
      rw [hcap ha] at hc
      exact Bool.noConfusion hc)]
    rw [if_neg hwh]
    simp only [e1, e2, e3]
    rw [if_neg (show ¬(ctx.isReg = false ∧ t.worm ≠ 0) from by
      rintro ⟨h1, h2⟩
      rw [hreg h2] at h1
      exact Bool.noConfusion h1)]
    simp [hf]

/-- Witness for the amended C4 at a concrete context and name. -/
theorem c4_remove_nonexistent_witness :
    scoutfs_removexattr_check ⟨true, 2, true, false, false⟩ "trusted.ab".data =
      .failed .enodata :=
  c4_remove_nonexistent_amended.2.1 ⟨true, 2, true, false, false⟩ "trusted.ab".data
    ⟨0, 0, 0, 0⟩ rfl (by decide) (by decide) rfl (by decide) (by decide)
    (fun h => absurd rfl h) (fun h => absurd rfl h) (fun h => absurd rfl h)

theorem range'_concat_one (s n : Nat) :
    List.range' s (n + 1) = List.range' s n ++ [s + n] := by
  induction n generalizing s with
  | zero => simp
  | succ n ih =>
    rw [List.range'_succ, ih (s + 1), List.range'_succ, List.cons_append]
    have : s + 1 + n = s + (n + 1) := by omega
    rw [this]

theorem updatesOf_append (a b : List Ev) :
    updatesOf (a ++ b) = updatesOf a ++ updatesOf b := by
  simp [updatesOf]

theorem createsOf_append (a b : List Ev) :
    createsOf (a ++ b) = createsOf a ++ createsOf b := by
  simp [createsOf]

theorem deletesOf_append (a b : List Ev) :
    deletesOf (a ++ b) = deletesOf a ++ deletesOf b := by
  simp [deletesOf]

theorem updatesOf_map_update (l : List Nat) : updatesOf (l.map Ev.update) = l := by
  induction l with
  | nil => rfl
  | cons a t ih => simp only [List.map_cons, updatesOf, List.filterMap_cons] at *; simp [ih]

theorem updatesOf_map_dirty (l : List Nat) : updatesOf (l.map Ev.dirty) = [] := by
  induction l with
  | nil => rfl
  | cons a t ih => simp only [List.map_cons, updatesOf, List.filterMap_cons] at *; simp [ih]

theorem updatesOf_map_create (l : List Nat) : updatesOf (l.map Ev.create) = [] := by
  induction l with
  | nil => rfl
  | cons a t ih => simp only [List.map_cons, updatesOf, List.filterMap_cons] at *; simp [ih]

theorem updatesOf_map_delete (l : List Nat) : updatesOf (l.map Ev.delete) = [] := by
  induction l with
  | nil => rfl
  | cons a t ih => simp only [List.map_cons, updatesOf, List.filterMap_cons] at *; simp [ih]

theorem createsOf_map_create (l : List Nat) : createsOf (l.map Ev.create) = l := by
  induction l with
  | nil => rfl
  | cons a t ih => simp only [List.map_cons, createsOf, List.filterMap_cons] at *; simp [ih]

theorem deletesOf_map_delete (l : List Nat) : deletesOf (l.map Ev.delete) = l := by
  induction l with
  | nil => rfl
  | cons a t ih => simp only [List.map_cons, deletesOf, List.filterMap_cons] at *; simp [ih]

theorem deletesOf_map_dirty (l : List Nat) : deletesOf (l.map Ev.dirty) = [] := by
  induction l with
  | nil => rfl
  | cons a t ih => simp only [List.map_cons, deletesOf, List.filterMap_cons] at *; simp [ih]

theorem dirtiesOf_append (a b : List Ev) :
    dirtiesOf (a ++ b) = dirtiesOf a ++ dirtiesOf b := by
  simp [dirtiesOf]

theorem dirtiesOf_map_dirty (l : List Nat) : dirtiesOf (l.map Ev.dirty) = l := by
  induction l with
  | nil => rfl
  | cons a t ih => simp only [List.map_cons, dirtiesOf, List.filterMap_cons] at *; simp [ih]

theorem dirtiesOf_map_delete (l : List Nat) : dirtiesOf (l.map Ev.delete) = [] := by
  induction l with
  | nil => rfl
  | cons a t ih => simp only [List.map_cons, dirtiesOf, List.filterMap_cons] at *; simp [ih]

theorem isNone_false_of_isSome {o : Option (List Nat)} (h : o.isSome = true) :
    ¬ o.isNone = true := by
  cases o with
  | none => cases h
  | some v => simp

theorem dirty_asc_ok (env : XEnv) :
    ∀ (cnt i : Nat) (st : XSt),
      (∀ j, i ≤ j → j < i + cnt → (st.store j).isSome ∧ env.dirtyFail j = false) →
      (dirty_asc env i cnt st).2 = none ∧
      (dirty_asc env i cnt st).1.store = st.store ∧
      (dirty_asc env i cnt st).1.trace = st.trace ++ (List.range' i cnt).map Ev.dirty ∧
      (∀ j, (dirty_asc env i cnt st).1.dirty j =
        if i ≤ j ∧ j < i + cnt then true else st.dirty j) := by
  intro cnt
  induction cnt with
  | zero =>
    intro i st _
    refine ⟨rfl, rfl, by simp [dirty_asc], ?_⟩
    intro j
    rw [if_neg (by omega)]
    rfl
  | succ cnt ih =>
    intro i st hpre
    have hi := hpre i (le_refl i) (by omega)
    have hstep : item_dirty env st i =
        .ok { st with dirty := setDirty st.dirty i true,
                      trace := st.trace ++ [Ev.dirty i] } := by
      unfold item_dirty
      rw [if_neg (by simp [Option.isNone_iff_eq_none]; exact Option.isSome_iff_ne_none.mp hi.1),
          if_neg (by simp [hi.2])]
    show (dirty_asc env i (cnt + 1) st).2 = none ∧ _
    unfold dirty_asc
    rw [hstep]
    obtain ⟨r1, r2, r3, r4⟩ := ih (i + 1)
      { st with dirty := setDirty st.dirty i true, trace := st.trace ++ [Ev.dirty i] }
      (fun j hj1 hj2 => hpre j (by omega) (by omega))
    refine ⟨r1, r2, ?_, ?_⟩
    · rw [r3]
      simp only [List.range'_succ, List.map_cons, List.append_assoc, List.singleton_append]
    · intro j
      rw [r4 j]
      by_cases hj : i + 1 ≤ j ∧ j < i + 1 + cnt
      · rw [if_pos hj, if_pos (by omega)]
      · rw [if_neg hj]
        show setDirty st.dirty i true j = _
        unfold setDirty
        by_cases hji : j = i
        · rw [if_pos hji, if_pos (by omega)]
        · rw [if_neg hji, if_neg (by omega)]

theorem dirty_asc_fail (env : XEnv) :
    ∀ (cnt i : Nat) (st : XSt) (jf : Nat), i ≤ jf → jf < i + cnt →
      (∀ j, i ≤ j → j < jf → (st.store j).isSome ∧ env.dirtyFail j = false) →
      (st.store jf).isSome → env.dirtyFail jf = true →
      (dirty_asc env i cnt st).2 = some .efail ∧
      (dirty_asc env i cnt st).1.store = st.store := by
  intro cnt
  induction cnt with
  | zero => intro i st jf h1 h2 _ _ _; omega
  | succ cnt ih =>
    intro i st jf h1 h2 hpre hjfs hjff
    by_cases hij : i = jf
    · subst hij
      have hstep : item_dirty env st i = .error .efail := by
        unfold item_dirty
        rw [if_neg (isNone_false_of_isSome hjfs),
            if_pos hjff]
      unfold dirty_asc
      rw [hstep]
      exact ⟨rfl, rfl⟩
    · have hi := hpre i (le_refl i) (by omega)
      have hstep : item_dirty env st i =
          .ok { st with dirty := setDirty st.dirty i true,
                        trace := st.trace ++ [Ev.dirty i] } := by
        unfold item_dirty
        rw [if_neg (isNone_false_of_isSome hi.1),
            if_neg (by simp [hi.2])]
      unfold dirty_asc
      rw [hstep]
      exact ih (i + 1)
        { st with dirty := setDirty st.dirty i true, trace := st.trace ++ [Ev.dirty i] }
        jf (by omega) (by omega)
        (fun j hj1 hj2 => hpre j (by omega) hj2) hjfs hjff

theorem create_rng_ok (env : XEnv) (ps : Nat) (xat : List Nat) :
    ∀ (cnt i : Nat) (st : XSt),
      (∀ j, i ≤ j → j < i + cnt → st.store j = none ∧ env.createFail j = false) →
      (create_rng env ps xat i cnt st).2 = none ∧
      (∀ j, (create_rng env ps xat i cnt st).1.store j =
        if i ≤ j ∧ j < i + cnt then some (xslice ps xat j) else st.store j) ∧
      (∀ j, (create_rng env ps xat i cnt st).1.dirty j =
        if i ≤ j ∧ j < i + cnt then true else st.dirty j) ∧
      (create_rng env ps xat i cnt st).1.trace =
        st.trace ++ (List.range' i cnt).map Ev.create := by
  intro cnt
  induction cnt with
  | zero =>
    intro i st _
    refine ⟨rfl, ?_, ?_, by simp [create_rng]⟩
    · intro j; rw [if_neg (by omega)]; rfl
    · intro j; rw [if_neg (by omega)]; rfl
  | succ cnt ih =>
    intro i st hpre
    have hi := hpre i (le_refl i) (by omega)
    have hstep : item_create env st i (xslice ps xat i) =
        .ok { store := setPart st.store i (some (xslice ps xat i)),
              dirty := setDirty st.dirty i true,
              trace := st.trace ++ [Ev.create i] } := by
      unfold item_create
      rw [if_neg (by rw [hi.1]; simp), if_neg (by simp [hi.2])]
    unfold create_rng
    rw [hstep]
    obtain ⟨r1, r2, r3, r4⟩ := ih (i + 1)
      { store := setPart st.store i (some (xslice ps xat i)),
        dirty := setDirty st.dirty i true,
        trace := st.trace ++ [Ev.create i] }
      (fun j hj1 hj2 => by
        refine ⟨?_, (hpre j (by omega) (by omega)).2⟩
        show setPart st.store i (some (xslice ps xat i)) j = none
        unfold setPart
        rw [if_neg (by omega)]
        exact (hpre j (by omega) (by omega)).1)
    refine ⟨r1, ?_, ?_, ?_⟩
    · intro j
      rw [r2 j]
      by_cases hj : i + 1 ≤ j ∧ j < i + 1 + cnt
      · rw [if_pos hj, if_pos (by omega)]
      · rw [if_neg hj]
        show setPart st.store i (some (xslice ps xat i)) j = _
        unfold setPart
        by_cases hji : j = i
        · rw [if_pos hji, if_pos (by omega), hji]
        · rw [if_neg hji, if_neg (by omega)]
    · intro j
      rw [r3 j]
      by_cases hj : i + 1 ≤ j ∧ j < i + 1 + cnt
      · rw [if_pos hj, if_pos (by omega)]
      · rw [if_neg hj]
        show setDirty st.dirty i true j = _
        unfold setDirty
        by_cases hji : j = i
        · rw [if_pos hji, if_pos (by omega)]
        · rw [if_neg hji, if_neg (by omega)]
    · rw [r4]
      simp only [List.range'_succ, List.map_cons, List.append_assoc, List.singleton_append]

theorem create_rng_fail (env : XEnv) (ps : Nat) (xat : List Nat) :
    ∀ (cnt i : Nat) (st : XSt) (jf : Nat), i ≤ jf → jf < i + cnt →
      (∀ j, i ≤ j → j < jf → st.store j = none ∧ env.createFail j = false) →
      st.store jf = none → env.createFail jf = true →
      (create_rng env ps xat i cnt st).2 = some (.efail, jf) ∧
      (∀ j, (create_rng env ps xat i cnt st).1.store j =
        if i ≤ j ∧ j < jf then some (xslice ps xat j) else st.store j) ∧
      (∀ j, (create_rng env ps xat i cnt st).1.dirty j =
        if i ≤ j ∧ j < jf then true else st.dirty j) ∧
      (create_rng env ps xat i cnt st).1.trace =
        st.trace ++ (List.range' i (jf - i)).map Ev.create := by
  intro cnt
  induction cnt with
  | zero => intro i st jf h1 h2 _ _ _; omega
  | succ cnt ih =>
    intro i st jf h1 h2 hpre hjfn hjff
    by_cases hij : i = jf
    · subst hij
      have hstep : item_create env st i (xslice ps xat i) = .error .efail := by
        unfold item_create
        rw [if_neg (by rw [hjfn]; simp), if_pos hjff]
      unfold create_rng
      rw [hstep]
      refine ⟨rfl, fun j => ?_, fun j => ?_, by simp⟩
      · rw [if_neg (by omega)]
      · rw [if_neg (by omega)]
    · have hi := hpre i (le_refl i) (by omega)
      have hstep : item_create env st i (xslice ps xat i) =
          .ok { store := setPart st.store i (some (xslice ps xat i)),
                dirty := setDirty st.dirty i true,
                trace := st.trace ++ [Ev.create i] } := by
        unfold item_create
        rw [if_neg (by rw [hi.1]; simp), if_neg (by simp [hi.2])]
      unfold create_rng
      rw [hstep]
      obtain ⟨r1, r2, r3, r4⟩ := ih (i + 1)
        { store := setPart st.store i (some (xslice ps xat i)),
          dirty := setDirty st.dirty i true,
          trace := st.trace ++ [Ev.create i] }
        jf (by omega) (by omega)
        (fun j hj1 hj2 => by
          refine ⟨?_, (hpre j (by omega) hj2).2⟩
          show setPart st.store i (some (xslice ps xat i)) j = none
          unfold setPart
          rw [if_neg (by omega)]
          exact (hpre j (by omega) hj2).1)
        (by show setPart st.store i (some (xslice ps xat i)) jf = none
            unfold setPart
            rw [if_neg (by omega)]
            exact hjfn)
        hjff
      refine ⟨r1, ?_, ?_, ?_⟩
      · intro j
        rw [r2 j]
        by_cases hj : i + 1 ≤ j ∧ j < jf
        · rw [if_pos hj, if_pos (by omega)]
        · rw [if_neg hj]
          show setPart st.store i (some (xslice ps xat i)) j = _
          unfold setPart
          by_cases hji : j = i
          · rw [if_pos hji, if_pos (by omega), hji]
          · rw [if_neg hji, if_neg (by omega)]
      · intro j
        rw [r3 j]
        by_cases hj : i + 1 ≤ j ∧ j < jf
        · rw [if_pos hj, if_pos (by omega)]
        · rw [if_neg hj]
          show setDirty st.dirty i true j = _
          unfold setDirty
          by_cases hji : j = i
          · rw [if_pos hji, if_pos (by omega)]
          · rw [if_neg hji, if_neg (by omega)]
      · rw [r4]
        have harith : jf - i = (jf - (i + 1)) + 1 := by omega
        rw [harith, List.range'_succ]
        simp only [List.map_cons, List.append_assoc, List.singleton_append]

theorem update_desc_ok (env : XEnv) (ps : Nat) (xat : List Nat) :
    ∀ (n : Nat) (st : XSt),
      (∀ j, j < n → (st.store j).isSome ∧ env.updateFail j = false) →
      (update_desc env ps xat n st).2 = none ∧
      (∀ j, (update_desc env ps xat n st).1.store j =
        if j < n then some (xslice ps xat j) else st.store j) ∧
      (∀ j, (update_desc env ps xat n st).1.dirty j =
        if j < n then true else st.dirty j) ∧
      (update_desc env ps xat n st).1.trace =
        st.trace ++ ((List.range' 0 n).reverse).map Ev.update := by
  intro n
  induction n with
  | zero =>
    intro st _
    refine ⟨rfl, ?_, ?_, by simp [update_desc]⟩
    · intro j; rw [if_neg (by omega)]; rfl
    · intro j; rw [if_neg (by omega)]; rfl
  | succ n ih =>
    intro st hpre
    have hn := hpre n (by omega)
    have hstep : item_update env st n (xslice ps xat n) =
        .ok { store := setPart st.store n (some (xslice ps xat n)),
              dirty := setDirty st.dirty n true,
              trace := st.trace ++ [Ev.update n] } := by
      unfold item_update
      rw [if_neg (isNone_false_of_isSome hn.1),
          if_neg (by simp [hn.2])]
    unfold update_desc
    rw [hstep]
    obtain ⟨r1, r2, r3, r4⟩ := ih
      { store := setPart st.store n (some (xslice ps xat n)),
        dirty := setDirty st.dirty n true,
        trace := st.trace ++ [Ev.update n] }
      (fun j hj => by
        constructor
        · show (setPart st.store n (some (xslice ps xat n)) j).isSome = true
          unfold setPart
          by_cases hjn : j = n
          · rw [if_pos hjn]; rfl
          · rw [if_neg hjn]; exact (hpre j (by omega)).1
        · exact (hpre j (by omega)).2)
    refine ⟨r1, ?_, ?_, ?_⟩
    · intro j
      rw [r2 j]
      by_cases hj : j < n
      · rw [if_pos hj, if_pos (by omega)]
      · rw [if_neg hj]
        show setPart st.store n (some (xslice ps xat n)) j = _
        unfold setPart
        by_cases hjn : j = n
        · rw [if_pos hjn, if_pos (by omega), hjn]
        · rw [if_neg hjn, if_neg (by omega)]
    · intro j
      rw [r3 j]
      by_cases hj : j < n
      · rw [if_pos hj, if_pos (by omega)]
      · rw [if_neg hj]
        show setDirty st.dirty n true j = _
        unfold setDirty
        by_cases hjn : j = n
        · rw [if_pos hjn, if_pos (by omega)]
        · rw [if_neg hjn, if_neg (by omega)]
    · rw [r4]
      rw [range'_concat_one 0 n, List.reverse_append]
      simp only [Nat.zero_add, List.reverse_cons, List.reverse_nil, List.nil_append,
        List.map_cons, List.append_assoc, List.singleton_append, List.map_append]

theorem item_delete_ok (env : XEnv) (st : XSt) (i : Nat)
    (h1 : (st.store i).isSome = true)
    (h2 : st.dirty i = true ∨ env.deleteFail i = false) :
    item_delete env st i =
      .ok { st with store := setPart st.store i none,
                    trace := st.trace ++ [Ev.delete i] } := by
  unfold item_delete
  rw [if_neg (isNone_false_of_isSome h1),
      if_neg (by
        rcases h2 with hd | hd
        · rw [hd]; rintro ⟨hx, _⟩; exact Bool.noConfusion hx
        · rw [hd]; rintro ⟨_, hx⟩; exact Bool.noConfusion hx)]

theorem del_asc_ok (env : XEnv) :
    ∀ (cnt i : Nat) (st : XSt),
      (∀ j, i ≤ j → j < i + cnt →
        (st.store j).isSome = true ∧ (st.dirty j = true ∨ env.deleteFail j = false)) →
      (del_asc env i cnt st).2 = none ∧
      (∀ j, (del_asc env i cnt st).1.store j =
        if i ≤ j ∧ j < i + cnt then none else st.store j) ∧
      (∀ j, (del_asc env i cnt st).1.dirty j = st.dirty j) ∧
      (del_asc env i cnt st).1.trace = st.trace ++ (List.range' i cnt).map Ev.delete := by
  intro cnt
  induction cnt with
  | zero =>
    intro i st _
    refine ⟨rfl, fun j => ?_, fun j => rfl, by simp [del_asc]⟩
    rw [if_neg (by omega)]
    rfl
  | succ cnt ih =>
    intro i st hpre
    have hi := hpre i (le_refl i) (by omega)
    unfold del_asc
    rw [item_delete_ok env st i hi.1 hi.2]
    obtain ⟨r1, r2, r3, r4⟩ := ih (i + 1)
      { st with store := setPart st.store i none, trace := st.trace ++ [Ev.delete i] }
      (fun j hj1 hj2 => by
        refine ⟨?_, (hpre j (by omega) (by omega)).2⟩
        show (setPart st.store i none j).isSome = true
        unfold setPart
        rw [if_neg (by omega)]
        exact (hpre j (by omega) (by omega)).1)
    refine ⟨r1, ?_, ?_, ?_⟩
    · intro j
      rw [r2 j]
      by_cases hj : i + 1 ≤ j ∧ j < i + 1 + cnt
      · rw [if_pos hj, if_pos (by omega)]
      · rw [if_neg hj]
        show setPart st.store i none j = _
        unfold setPart
        by_cases hji : j = i
        · rw [if_pos hji, if_pos (by omega)]
        · rw [if_neg hji, if_neg (by omega)]
    · intro j
      rw [r3 j]
    · rw [r4]
      simp only [List.range'_succ, List.map_cons, List.append_assoc, List.singleton_append]

theorem del_asc_ign_ok (env : XEnv) :
    ∀ (cnt i : Nat) (st : XSt),
      (∀ j, i ≤ j → j < i + cnt →
        (st.store j).isSome = true ∧ (st.dirty j = true ∨ env.deleteFail j = false)) →
      (∀ j, (del_asc_ign env i cnt st).store j =
        if i ≤ j ∧ j < i + cnt then none else st.store j) ∧
      (∀ j, (del_asc_ign env i cnt st).dirty j = st.dirty j) ∧
      (del_asc_ign env i cnt st).trace = st.trace ++ (List.range' i cnt).map Ev.delete := by
  intro cnt
  induction cnt with
  | zero =>
    intro i st _
    refine ⟨fun j => ?_, fun j => rfl, by simp [del_asc_ign]⟩
    rw [if_neg (by omega)]
    rfl
  | succ cnt ih =>
    intro i st hpre
    have hi := hpre i (le_refl i) (by omega)
    unfold del_asc_ign
    have hign : item_delete_ign env st i =
        { st with store := setPart st.store i none,
                  trace := st.trace ++ [Ev.delete i] } := by
      unfold item_delete_ign
      rw [item_delete_ok env st i hi.1 hi.2]
    rw [hign]
    obtain ⟨r2, r3, r4⟩ := ih (i + 1)
      { st with store := setPart st.store i none, trace := st.trace ++ [Ev.delete i] }
      (fun j hj1 hj2 => by
        refine ⟨?_, (hpre j (by omega) (by omega)).2⟩
        show (setPart st.store i none j).isSome = true
        unfold setPart
        rw [if_neg (by omega)]
        exact (hpre j (by omega) (by omega)).1)
    refine ⟨?_, ?_, ?_⟩
    · intro j
      rw [r2 j]
      by_cases hj : i + 1 ≤ j ∧ j < i + 1 + cnt
      · rw [if_pos hj, if_pos (by omega)]
      · rw [if_neg hj]
        show setPart st.store i none j = _
        unfold setPart
        by_cases hji : j = i
        · rw [if_pos hji, if_pos (by omega)]
        · rw [if_neg hji, if_neg (by omega)]
    · intro j
      rw [r3 j]
    · rw [r4]
      simp only [List.range'_succ, List.map_cons, List.append_assoc, List.singleton_append]

theorem unwind_del_ok (env : XEnv) :
    ∀ (n : Nat) (st : XSt),
      (∀ j, j < n →
        (st.store j).isSome = true ∧ (st.dirty j = true ∨ env.deleteFail j = false)) →
      (∀ j, (unwind_del env n st).store j = if j < n then none else st.store j) ∧
      (∀ j, (unwind_del env n st).dirty j = st.dirty j) ∧
      (unwind_del env n st).trace =
        st.trace ++ ((List.range' 0 n).reverse).map Ev.delete := by
  intro n
  induction n with
  | zero =>
    intro st _
    refine ⟨fun j => ?_, fun j => rfl, by simp [unwind_del]⟩
    rw [if_neg (by omega)]
    rfl
  | succ n ih =>
    intro st hpre
    have hn := hpre n (by omega)
    unfold unwind_del
    have hign : item_delete_ign env st n =
        { st with store := setPart st.store n none,
                  trace := st.trace ++ [Ev.delete n] } := by
      unfold item_delete_ign
      rw [item_delete_ok env st n hn.1 hn.2]
    rw [hign]
    obtain ⟨r2, r3, r4⟩ := ih
      { st with store := setPart st.store n none, trace := st.trace ++ [Ev.delete n] }
      (fun j hj => by
        refine ⟨?_, (hpre j (by omega)).2⟩
        show (setPart st.store n none j).isSome = true
        unfold setPart
        rw [if_neg (by omega)]
        exact (hpre j (by omega)).1)
    refine ⟨?_, ?_, ?_⟩
    · intro j
      rw [r2 j]
      by_cases hj : j < n
      · rw [if_pos hj, if_pos (by omega)]
      · rw [if_neg hj]
        show setPart st.store n none j = _
        unfold setPart
        by_cases hjn : j = n
        · rw [if_pos hjn, if_pos (by omega)]
        · rw [if_neg hjn, if_neg (by omega)]
    · intro j
      rw [r3 j]
    · rw [r4]
      rw [range'_concat_one 0 n, List.reverse_append]
      simp only [Nat.zero_add, List.reverse_cons, List.reverse_nil, List.nil_append,
        List.map_cons, List.append_assoc, List.singleton_append, List.map_append]

theorem create_go_ok (env : XEnv) (ps : Nat) (xat : List Nat) :
    ∀ (cnt i : Nat) (st : XSt),
      (∀ j, i ≤ j → j < i + cnt → st.store j = none ∧ env.createFail j = false) →
      (create_go env ps xat cnt i st).2 = none ∧
      (∀ j, (create_go env ps xat cnt i st).1.store j =
        if i ≤ j ∧ j < i + cnt then some (xslice ps xat j) else st.store j) ∧
      (∀ j, (create_go env ps xat cnt i st).1.dirty j =
        if i ≤ j ∧ j < i + cnt then true else st.dirty j) ∧
      (create_go env ps xat cnt i st).1.trace =
        st.trace ++ (List.range' i cnt).map Ev.create := by
  intro cnt
  induction cnt with
  | zero =>
    intro i st _
    refine ⟨rfl, fun j => ?_, fun j => ?_, by simp [create_go]⟩
    · rw [if_neg (by omega)]
      rfl
    · rw [if_neg (by omega)]
      rfl
  | succ cnt ih =>
    intro i st hpre
    have hi := hpre i (le_refl i) (by omega)
    have hstep : item_create env st i (xslice ps xat i) =
        .ok { store := setPart st.store i (some (xslice ps xat i)),
              dirty := setDirty st.dirty i true,
              trace := st.trace ++ [Ev.create i] } := by
      unfold item_create
      rw [if_neg (by rw [hi.1]; simp), if_neg (by simp [hi.2])]
    unfold create_go
    rw [hstep]
    obtain ⟨r1, r2, r3, r4⟩ := ih (i + 1)
      { store := setPart st.store i (some (xslice ps xat i)),
        dirty := setDirty st.dirty i true,
        trace := st.trace ++ [Ev.create i] }
      (fun j hj1 hj2 => by
        refine ⟨?_, (hpre j (by omega) (by omega)).2⟩
        show setPart st.store i (some (xslice ps xat i)) j = none
        unfold setPart
        rw [if_neg (by omega)]
        exact (hpre j (by omega) (by omega)).1)
    refine ⟨r1, ?_, ?_, ?_⟩
    · intro j
      rw [r2 j]
      by_cases hj : i + 1 ≤ j ∧ j < i + 1 + cnt
      · rw [if_pos hj, if_pos (by omega)]
      · rw [if_neg hj]
        show setPart st.store i (some (xslice ps xat i)) j = _
        unfold setPart
        by_cases hji : j = i
        · rw [if_pos hji, if_pos (by omega), hji]
        · rw [if_neg hji, if_neg (by omega)]
    · intro j
      rw [r3 j]
      by_cases hj : i + 1 ≤ j ∧ j < i + 1 + cnt
      · rw [if_pos hj, if_pos (by omega)]
      · rw [if_neg hj]
        show setDirty st.dirty i true j = _
        unfold setDirty
        by_cases hji : j = i
        · rw [if_pos hji, if_pos (by omega)]
        · rw [if_neg hji, if_neg (by omega)]
    · rw [r4]
      simp only [List.range'_succ, List.map_cons, List.append_assoc, List.singleton_append]

theorem create_go_fail (env : XEnv) (ps : Nat) (xat : List Nat) :
    ∀ (cnt i : Nat) (st : XSt) (jf : Nat), i ≤ jf → jf < i + cnt →
      (∀ j, i ≤ j → j < jf → st.store j = none ∧ env.createFail j = false) →
      st.store jf = none → env.createFail jf = true →
      (∀ j, j < i → (st.store j).isSome = true ∧ st.dirty j = true) →
      (create_go env ps xat cnt i st).2 = some .efail ∧
      (∀ j, (create_go env ps xat cnt i st).1.store j =
        if j < jf then none else st.store j) := by
  intro cnt
  induction cnt with
  | zero => intro i st jf h1 h2 _ _ _ _; omega
  | succ cnt ih =>
    intro i st jf h1 h2 hpre hjfn hjff hlow
    by_cases hij : i = jf
    · subst hij
      have hstep : item_create env st i (xslice ps xat i) = .error .efail := by
        unfold item_create
        rw [if_neg (by rw [hjfn]; simp), if_pos hjff]
      unfold create_go
      rw [hstep]
      obtain ⟨u2, _, _⟩ := unwind_del_ok env i st
        (fun j hj => ⟨(hlow j hj).1, Or.inl (hlow j hj).2⟩)
      exact ⟨rfl, u2⟩
    · have hi := hpre i (le_refl i) (by omega)
      have hstep : item_create env st i (xslice ps xat i) =
          .ok { store := setPart st.store i (some (xslice ps xat i)),
                dirty := setDirty st.dirty i true,
                trace := st.trace ++ [Ev.create i] } := by
        unfold item_create
        rw [if_neg (by rw [hi.1]; simp), if_neg (by simp [hi.2])]
      unfold create_go
      rw [hstep]
      obtain ⟨r1, r2⟩ := ih (i + 1)
        { store := setPart st.store i (some (xslice ps xat i)),
          dirty := setDirty st.dirty i true,
          trace := st.trace ++ [Ev.create i] }
        jf (by omega) (by omega)
        (fun j hj1 hj2 => by
          refine ⟨?_, (hpre j (by omega) hj2).2⟩
          show setPart st.store i (some (xslice ps xat i)) j = none
          unfold setPart
          rw [if_neg (by omega)]
          exact (hpre j (by omega) hj2).1)
        (by show setPart st.store i (some (xslice ps xat i)) jf = none
            unfold setPart
            rw [if_neg (by omega)]
            exact hjfn)
        hjff
        (fun j hj => by
          constructor
          · show (setPart st.store i (some (xslice ps xat i)) j).isSome = true
            unfold setPart
            by_cases hji : j = i
            · rw [if_pos hji]
              rfl
            · rw [if_neg hji]
              exact (hlow j (by omega)).1
          · show setDirty st.dirty i true j = true
            unfold setDirty
            by_cases hji : j = i
            · rw [if_pos hji]
            · rw [if_neg hji]
              exact (hlow j (by omega)).2)
      refine ⟨r1, ?_⟩
      intro j
      rw [r2 j]
      by_cases hj : j < jf
      · rw [if_pos hj, if_pos hj]
      · rw [if_neg hj, if_neg hj]
        show setPart st.store i (some (xslice ps xat i)) j = _
        unfold setPart
        rw [if_neg (by omega)]

theorem nrParts_zero (ps : Nat) (hps : 0 < ps) : nrParts ps 0 = 0 := by
  unfold nrParts
  exact Nat.div_eq_of_lt (by omega)

theorem nrParts_pos_eq (ps m : Nat) (hps : 0 < ps) (hm : 0 < m) :
    nrParts ps m = nrParts ps (m - ps) + 1 := by
  unfold nrParts
  by_cases hle : m ≤ ps
  · have h1 : m + ps - 1 = (m - 1) + ps := by omega
    rw [h1, Nat.add_div_right _ hps]
    have h2 : m - ps = 0 := by omega
    rw [h2]
    rw [Nat.div_eq_of_lt (show m - 1 < ps by omega),
        Nat.div_eq_of_lt (show 0 + ps - 1 < ps by omega)]
  · have h1 : m + ps - 1 = (m - 1) + ps := by omega
    rw [h1, Nat.add_div_right _ hps]
    have h2 : m - ps + ps - 1 = (m - ps - 1) + ps := by omega
    rw [h2, Nat.add_div_right _ hps]
    have h3 : m - 1 = (m - ps - 1) + ps := by omega
    rw [h3, Nat.add_div_right _ hps]

theorem xslice_shift (ps : Nat) (l : List Nat) (i : Nat) :
    xslice ps l (i + 1) = xslice ps (l.drop ps) i := by
  unfold xslice
  rw [List.drop_drop]
  have h1 : ps + i * ps = (i + 1) * ps := by ring
  rw [h1]

theorem join_xslice (ps : Nat) (hps : 0 < ps) :
    ∀ (n : Nat) (l : List Nat), l.length ≤ n →
      ((List.range (nrParts ps l.length)).map (fun i => xslice ps l i)).flatten = l := by
  intro n
  induction n with
  | zero =>
    intro l hl
    have h0 : l = [] := List.length_eq_zero.mp (by omega)
    subst h0
    simp [nrParts_zero ps hps]
  | succ n ih =>
    intro l hl
    by_cases h0 : l.length = 0
    · have h0l : l = [] := List.length_eq_zero.mp h0
      subst h0l
      simp [nrParts_zero ps hps]
    · rw [nrParts_pos_eq ps l.length hps (by omega)]
      rw [List.range_succ_eq_map, List.map_cons, List.flatten_cons, List.map_map]
      have hmap : (List.range (nrParts ps (l.length - ps))).map
            ((fun i => xslice ps l i) ∘ (· + 1)) =
          (List.range (nrParts ps (l.length - ps))).map (fun i => xslice ps (l.drop ps) i) := by
        apply List.map_congr_left
        intro a _
        exact xslice_shift ps l a
      rw [hmap]
      have hlen : (l.drop ps).length = l.length - ps := List.length_drop ..
      have := ih (l.drop ps) (by rw [hlen]; omega)
      rw [hlen] at this
      rw [this]
      have h00 : xslice ps l 0 = l.take ps := by
        unfold xslice
        norm_num
      rw [h00]
      exact List.take_append_drop ..

/-- C3: creating the items of a serialized xattr writes the parts in
ascending order 0..N-1, the resulting store holds exactly those parts
and their concatenation is the serialized record; if the write of any
part fails, every part already written is deleted before the error is
surfaced, so a failed create leaves zero parts in the store. -/
theorem c3_create_items (env : XEnv) (ps : Nat) (xat : List Nat) (st : XSt)
    (hps : 0 < ps)
    (hstore : ∀ i, st.store i = none) :
    ((∀ i, i < nrParts ps xat.length → env.createFail i = false) →
      (create_xattr_items env ps xat st).2 = none ∧
      (∀ i, (create_xattr_items env ps xat st).1.store i =
        if i < nrParts ps xat.length then some (xslice ps xat i) else none) ∧
      createsOf (create_xattr_items env ps xat st).1.trace =
        createsOf st.trace ++ List.range' 0 (nrParts ps xat.length) ∧
      ((List.range (nrParts ps xat.length)).map
        (fun i => ((create_xattr_items env ps xat st).1.store i).getD [])).flatten = xat) ∧
    (∀ jf, jf < nrParts ps xat.length → env.createFail jf = true →
      (∀ j, j < jf → env.createFail j = false) →
      (create_xattr_items env ps xat st).2 = some .efail ∧
      (∀ i, (create_xattr_items env ps xat st).1.store i = none)) := by
  constructor
  · intro henv
    obtain ⟨r1, r2, r3, r4⟩ := create_go_ok env ps xat (nrParts ps xat.length) 0 st
      (fun j hj1 hj2 => ⟨hstore j, henv j (by omega)⟩)
    have hstoreI : ∀ i, (create_xattr_items env ps xat st).1.store i =
        if i < nrParts ps xat.length then some (xslice ps xat i) else none := by
      intro i
      show (create_go env ps xat (nrParts ps xat.length) 0 st).1.store i = _
      rw [r2 i]
      by_cases hi : i < nrParts ps xat.length
      · rw [if_pos (by omega), if_pos hi]
      · rw [if_neg (by omega), if_neg hi, hstore i]
    refine ⟨r1, hstoreI, ?_, ?_⟩
    · show createsOf (create_go env ps xat (nrParts ps xat.length) 0 st).1.trace = _
      rw [r4, createsOf_append, createsOf_map_create]
    · have : (List.range (nrParts ps xat.length)).map
          (fun i => ((create_xattr_items env ps xat st).1.store i).getD []) =
          (List.range (nrParts ps xat.length)).map (fun i => xslice ps xat i) := by
        apply List.map_congr_left
        intro a ha
        rw [hstoreI a, if_pos (List.mem_range.mp ha)]
        rfl
      rw [this]
      exact join_xslice ps hps xat.length xat (le_refl _)
  · intro jf hjf hjff hjlow
    obtain ⟨r1, r2⟩ := create_go_fail env ps xat (nrParts ps xat.length) 0 st jf
      (by omega) (by omega)
      (fun j hj1 hj2 => ⟨hstore j, hjlow j hj2⟩)
      (hstore jf) hjff
      (fun j hj => absurd hj (by omega))
    refine ⟨r1, ?_⟩
    intro i
    show (create_go env ps xat (nrParts ps xat.length) 0 st).1.store i = none
    rw [r2 i]
    by_cases hi : i < jf
    · rw [if_pos hi]
    · rw [if_neg hi, hstore i]

/-- Witness for C3 at a concrete record and part size. -/
theorem c3_create_items_witness :
    (create_xattr_items envOK 2 [1, 2, 3] ⟨fun _ => none, fun _ => false, []⟩).1.store 1 =
      some [3] := by
  have h := (c3_create_items envOK 2 [1, 2, 3] ⟨fun _ => none, fun _ => false, []⟩
    (by omega) (fun i => rfl)).1 (fun i _ => rfl)
  rw [h.2.1 1]
  rfl

theorem option_eq_none_of_not_isSome {o : Option (List Nat)} (h : ¬ o.isSome = true) :
    o = none := by
  cases o with
  | none => rfl
  | some v => exact absurd rfl h

/-- C2 counterexample: a successful complete delete of a two-part
xattr never marks part 0 dirty: the mark loop of the C source starts
at part 1, so the claim that all P parts are marked before removal
fails already at P = 2. -/
theorem c2_delete_items_cex :
    (delete_xattr_items envOK 2
      ⟨fun i => if i < 2 then some [7] else none, fun _ => false, []⟩).2 = none ∧
    (delete_xattr_items envOK 2
      ⟨fun i => if i < 2 then some [7] else none, fun _ => false, []⟩).1.store 0 = none ∧
    (delete_xattr_items envOK 2
      ⟨fun i => if i < 2 then some [7] else none, fun _ => false, []⟩).1.store 1 = none ∧
    Ev.dirty 0 ∉ (delete_xattr_items envOK 2
      ⟨fun i => if i < 2 then some [7] else none, fun _ => false, []⟩).1.trace := by
  refine ⟨rfl, rfl, rfl, ?_⟩
  have htr : (delete_xattr_items envOK 2
      ⟨fun i => if i < 2 then some [7] else none, fun _ => false, []⟩).1.trace =
      [Ev.dirty 1, Ev.delete 0, Ev.delete 1] := rfl
  rw [htr]
  decide

/-- C2 amended: the delete protocol first marks the additional parts
1..P-1 dirty (part 0 is not marked); a failure while marking returns
an error with the stored bytes unchanged and no part deleted; after
all marks succeed the parts are removed in ascending order 0..P-1,
every mark preceding every removal in the call trace. -/
theorem c2_delete_items_amended (env : XEnv) (P : Nat) (st : XSt)
    (hP : 1 ≤ P)
    (hstore : ∀ i, (st.store i).isSome = true ↔ i < P) :
    (∀ jf, 1 ≤ jf → jf < P → env.dirtyFail jf = true →
      (∀ j, 1 ≤ j → j < jf → env.dirtyFail j = false) →
      (delete_xattr_items env P st).2 = some .efail ∧
      (delete_xattr_items env P st).1.store = st.store) ∧
    ((∀ j, 1 ≤ j → j < P → env.dirtyFail j = false) →
     (st.dirty 0 = true ∨ env.deleteFail 0 = false) →
      (delete_xattr_items env P st).2 = none ∧
      (∀ i, (delete_xattr_items env P st).1.store i = none) ∧
      (delete_xattr_items env P st).1.trace =
        st.trace ++ (List.range' 1 (P - 1)).map Ev.dirty
          ++ (List.range' 0 P).map Ev.delete) := by
  constructor
  · intro jf hjf1 hjf2 hjff hjlow
    obtain ⟨f1, f2⟩ := dirty_asc_fail env (P - 1) 1 st jf hjf1 (by omega)
      (fun j hj1 hj2 => ⟨(hstore j).mpr (by omega), hjlow j hj1 hj2⟩)
      ((hstore jf).mpr (by omega)) hjff
    have hsplit : dirty_asc env 1 (P - 1) st =
        ((dirty_asc env 1 (P - 1) st).1, some Err.efail) := by
      rw [← f1]
    unfold delete_xattr_items
    rw [hsplit]
    exact ⟨rfl, f2⟩
  · intro hmark h0
    obtain ⟨d1, d2, d3, d4⟩ := dirty_asc_ok env (P - 1) 1 st
      (fun j hj1 hj2 => ⟨(hstore j).mpr (by omega), hmark j hj1 (by omega)⟩)
    have hsplit : dirty_asc env 1 (P - 1) st =
        ((dirty_asc env 1 (P - 1) st).1, none) := by
      rw [← d1]
    unfold delete_xattr_items
    rw [hsplit]
    obtain ⟨e1, e2, e3, e4⟩ := del_asc_ok env P 0 (dirty_asc env 1 (P - 1) st).1
      (fun j hj1 hj2 => by
        constructor
        · rw [d2]
          exact (hstore j).mpr (by omega)
        · by_cases hj0 : j = 0
          · subst hj0
            rcases h0 with hd | hd
            · left
              rw [d4 0, if_neg (by omega)]
              exact hd
            · right
              exact hd
          · left
            rw [d4 j, if_pos (by omega)])
    refine ⟨e1, ?_, ?_⟩
    · intro i
      rw [e2 i]
      by_cases hi : i < P
      · rw [if_pos (by omega)]
      · rw [if_neg (by omega), d2]
        exact option_eq_none_of_not_isSome (fun hs => hi ((hstore i).mp hs))
    · rw [e4, d3]

/-- Witness for the amended C2 at a concrete three-part xattr. -/
theorem c2_delete_items_witness :
    (delete_xattr_items envOK 3
      ⟨fun i => if i < 3 then some [5] else none, fun _ => false, []⟩).1.store 2 = none := by
  have h := (c2_delete_items_amended envOK 3
      ⟨fun i => if i < 3 then some [5] else none, fun _ => false, []⟩
      (by omega)
      (fun i => by by_cases hi : i < 3 <;> simp [hi])).2
    (fun j _ _ => rfl) (Or.inr rfl)
  exact h.2.1 2

/-- C1: replacing an existing P-part xattr by the serialization of a
new record with Q parts leaves exactly the parts 0..Q-1 in the store,
holding slices whose concatenation is the new serialized record, and
the call trace shows the old parts dirtied in ascending order, the
net-new parts created in ascending order, the overlapping range
0..min(P,Q)-1 overwritten processing the highest index first, and the
trailing old parts deleted. -/
theorem c1_change_items (env : XEnv) (ps : Nat) (xat : List Nat) (P : Nat) (st : XSt)
    (hps : 0 < ps) (hP : 1 ≤ P)
    (hstore : ∀ i, (st.store i).isSome = true ↔ i < P)
    (hD : ∀ i, env.dirtyFail i = false)
    (hC : ∀ i, env.createFail i = false)
    (hU : ∀ i, env.updateFail i = false) :
    (change_xattr_items env ps xat (nrParts ps xat.length) P st).2 = none ∧
    (∀ i, (change_xattr_items env ps xat (nrParts ps xat.length) P st).1.store i =
      if i < nrParts ps xat.length then some (xslice ps xat i) else none) ∧
    (change_xattr_items env ps xat (nrParts ps xat.length) P st).1.trace =
      st.trace ++ (List.range' 0 P).map Ev.dirty
        ++ (List.range' P (nrParts ps xat.length - P)).map Ev.create
        ++ ((List.range' 0 (min P (nrParts ps xat.length))).reverse).map Ev.update
        ++ (List.range' (nrParts ps xat.length) (P - nrParts ps xat.length)).map Ev.delete ∧
    ((List.range (nrParts ps xat.length)).map
      (fun i => ((change_xattr_items env ps xat (nrParts ps xat.length) P st).1.store i).getD
        [])).flatten = xat := by
  rcases h1 : dirty_asc env 0 P st with ⟨st1, o1⟩
  obtain ⟨d1, d2, d3, d4⟩ := dirty_asc_ok env P 0 st
    (fun j hj1 hj2 => ⟨(hstore j).mpr (by omega), hD j⟩)
  rw [h1] at d1 d2 d3 d4
  have ho1 : o1 = none := d1
  subst ho1
  have d2a : st1.store = st.store := d2
  have d3a : st1.trace = st.trace ++ (List.range' 0 P).map Ev.dirty := d3
  have d4a : ∀ j, st1.dirty j = if 0 ≤ j ∧ j < 0 + P then true else st.dirty j := d4
  rcases h2 : create_rng env ps xat P (nrParts ps xat.length - P) st1 with ⟨st2, o2⟩
  obtain ⟨c1, c2, c3, c4⟩ := create_rng_ok env ps xat (nrParts ps xat.length - P) P st1
    (fun j hj1 hj2 => by
      refine ⟨?_, hC j⟩
      rw [d2a]
      exact option_eq_none_of_not_isSome (fun hs => by
        have := (hstore j).mp hs
        omega))
  rw [h2] at c1 c2 c3 c4
  have ho2 : o2 = none := c1
  subst ho2
  have c2a : ∀ j, st2.store j = if P ≤ j ∧ j < P + (nrParts ps xat.length - P)
      then some (xslice ps xat j) else st1.store j := c2
  have c3a : ∀ j, st2.dirty j = if P ≤ j ∧ j < P + (nrParts ps xat.length - P)
      then true else st1.dirty j := c3
  have c4a : st2.trace = st1.trace ++ (List.range' P (nrParts ps xat.length - P)).map Ev.create := c4
  rcases h3 : update_desc env ps xat (min P (nrParts ps xat.length)) st2 with ⟨st3, o3⟩
  obtain ⟨u1, u2, u3, u4⟩ := update_desc_ok env ps xat (min P (nrParts ps xat.length)) st2
    (fun j hj => by
      refine ⟨?_, hU j⟩
      rw [c2a j, if_neg (by omega), d2a]
      exact (hstore j).mpr (by omega))
  rw [h3] at u1 u2 u3 u4
  have ho3 : o3 = none := u1
  subst ho3
  have u2a : ∀ j, st3.store j = if j < min P (nrParts ps xat.length)
      then some (xslice ps xat j) else st2.store j := u2
  have u3a : ∀ j, st3.dirty j = if j < min P (nrParts ps xat.length)
      then true else st2.dirty j := u3
  have u4a : st3.trace = st2.trace ++
      ((List.range' 0 (min P (nrParts ps xat.length))).reverse).map Ev.update := u4
  obtain ⟨g2, g3, g4⟩ := del_asc_ign_ok env (P - nrParts ps xat.length)
    (nrParts ps xat.length) st3
    (fun j hj1 hj2 => by
      constructor
      · rw [u2a j, if_neg (by omega), c2a j, if_neg (by omega), d2a]
        exact (hstore j).mpr (by omega)
      · left
        rw [u3a j, if_neg (by omega), c3a j, if_neg (by omega), d4a j, if_pos (by omega)])
  have hrun : change_xattr_items env ps xat (nrParts ps xat.length) P st =
      (del_asc_ign env (nrParts ps xat.length) (P - nrParts ps xat.length) st3, none) := by
    unfold change_xattr_items
    simp only [h1]
    simp only [h2]
    simp only [h3]
  have hstoreI : ∀ i,
      (change_xattr_items env ps xat (nrParts ps xat.length) P st).1.store i =
      if i < nrParts ps xat.length then some (xslice ps xat i) else none := by
    intro i
    rw [hrun]
    show (del_asc_ign env (nrParts ps xat.length) (P - nrParts ps xat.length) st3).store i = _
    rw [g2 i]
    by_cases hc1 : nrParts ps xat.length ≤ i ∧
        i < nrParts ps xat.length + (P - nrParts ps xat.length)
    · rw [if_pos hc1, if_neg (by omega)]
    · rw [if_neg hc1, u2a i]
      by_cases hc2 : i < min P (nrParts ps xat.length)
      · rw [if_pos hc2, if_pos (by omega)]
      · rw [if_neg hc2, c2a i]
        by_cases hc3 : P ≤ i ∧ i < P + (nrParts ps xat.length - P)
        · rw [if_pos hc3, if_pos (by omega)]
        · rw [if_neg hc3, d2a, if_neg (by omega)]
          exact option_eq_none_of_not_isSome (fun hs => by
            have := (hstore i).mp hs
            omega)
  refine ⟨by rw [hrun], hstoreI, ?_, ?_⟩
  · rw [hrun]
    show (del_asc_ign env (nrParts ps xat.length) (P - nrParts ps xat.length) st3).trace = _
    rw [g4, u4a, c4a, d3a]
  · have hmapeq : (List.range (nrParts ps xat.length)).map
        (fun i => ((change_xattr_items env ps xat (nrParts ps xat.length) P st).1.store
          i).getD []) =
        (List.range (nrParts ps xat.length)).map (fun i => xslice ps xat i) := by
      apply List.map_congr_left
      intro a ha
      rw [hstoreI a, if_pos (List.mem_range.mp ha)]
      rfl
    rw [hmapeq]
    exact join_xslice ps hps xat.length xat (le_refl _)

/-- Witness for C1 at a concrete two-part to two-part change. -/
theorem c1_change_items_witness :
    (change_xattr_items envOK 2 [1, 2, 3] (nrParts 2 ([1, 2, 3] : List Nat).length) 2
      ⟨fun i => if i < 2 then some [9] else none, fun _ => false, []⟩).1.store 1 =
      some [3] := by
  have h := c1_change_items envOK 2 [1, 2, 3] 2
      ⟨fun i => if i < 2 then some [9] else none, fun _ => false, []⟩
      (by omega) (by omega)
      (fun i => by by_cases hi : i < 2 <;> simp [hi])
      (fun i => rfl) (fun i => rfl) (fun i => rfl)
  rw [h.2.1 1]
  rfl

theorem keyLe_same (h p i : Nat) : keyLe ⟨h, 0, p⟩ ⟨h, 0, i⟩ = decide (p ≤ i) := by
  unfold keyLe
  by_cases hpi : p ≤ i
  · rw [decide_eq_true (by simp; omega), decide_eq_true hpi]
  · rw [decide_eq_false (by simp; omega), decide_eq_false hpi]

theorem keyLe_last (k : IKey) (hh : k.h ≤ U32MAX) (hid : k.id < U64MAX) :
    keyLe k lastKey = true := by
  unfold keyLe lastKey
  apply decide_eq_true
  show k.h < U32MAX ∨ k.h = U32MAX ∧ (k.id < U64MAX ∨ k.id = U64MAX ∧ k.p ≤ 0)
  by_cases hl : k.h < U32MAX
  · exact Or.inl hl
  · exact Or.inr ⟨by omega, Or.inl hid⟩

theorem find?_cons_eq {α : Type} (p : α → Bool) (a : α) (l : List α) :
    (a :: l).find? p = if p a then some a else l.find? p := by
  by_cases h : p a = true
  · rw [if_pos h, List.find?_cons_of_pos _ h]
  · rw [if_neg h, List.find?_cons_of_neg _ (by simp at h; simp [h])]

theorem xhash_le (l : List Nat) : xhash l ≤ U32MAX := by
  unfold xhash U32MAX
  have haux : ∀ (m : List Nat) (a : Nat), a ≤ 4294967295 →
      m.foldl (fun a c => (a * 31 + c) % 4294967296) a ≤ 4294967295 := by
    intro m
    induction m with
    | nil => intro a ha; exact ha
    | cons c rest ih =>
      intro a _
      rw [List.foldl_cons]
      refine ih _ ?_
      show (a * 31 + c) % 4294967296 ≤ 4294967295
      have := Nat.mod_lt (a * 31 + c) (show 0 < 4294967296 by omega)
      omega
  exact haux l 1 (by omega)

theorem c9_empty (ps B fuel : Nat) (qname : List Nat)
    (hB : HDRLEN + qname.length ≤ B) (hfuel : 1 ≤ fuel) :
    get_next_named [] ps B fuel qname = some (.error .enoent) := by
  unfold get_next_named
  rw [if_neg (by omega)]
  obtain ⟨f, rfl⟩ : ∃ f, fuel = f + 1 := ⟨fuel - 1, by omega⟩
  rfl

theorem c9_hdr (ps B fuel : Nat) (qname data : List Nat)
    (hB : HDRLEN + qname.length ≤ B) (hdl : data.length ≤ B) (hfuel : 1 ≤ fuel)
    (hbad : hdrBad qname.length data.length data = true) :
    get_next_named [(⟨xhash qname, 0, 0⟩, data)] ps B fuel qname =
      some (.error .eio) := by
  unfold get_next_named
  rw [if_neg (by omega)]
  obtain ⟨f, rfl⟩ : ∃ f, fuel = f + 1 := ⟨fuel - 1, by omega⟩
  show get_next_go _ ps qname (xhash qname) B (f + 1) (xhash qname) 0 0 0 [] = _
  unfold get_next_go
  have hkq : keyLe ⟨xhash qname, 0, 0⟩ ⟨xhash qname, 0, 0⟩ = true := by
    rw [keyLe_same]
    simp
  have hkl : keyLe ⟨xhash qname, 0, 0⟩ lastKey = true :=
    keyLe_last _ (xhash_le qname) (by show (0 : Nat) < U64MAX; unfold U64MAX; omega)
  have hitem : item_next [(⟨xhash qname, 0, 0⟩, data)] ⟨xhash qname, 0, 0⟩ lastKey
      (B - ([] : List Nat).length) = some (⟨xhash qname, 0, 0⟩, data) := by
    unfold item_next
    rw [find?_cons_eq]
    rw [if_pos (by
      show (keyLe ⟨xhash qname, 0, 0⟩ ⟨xhash qname, 0, 0⟩ &&
        keyLe ⟨xhash qname, 0, 0⟩ lastKey) = true
      rw [hkq, hkl]
      rfl)]
    have htake : data.take (B - ([] : List Nat).length) = data := by
      apply List.take_of_length_le
      simp only [List.length_nil, Nat.sub_zero]
      exact hdl
    simp [htake]
    exact hdl
  simp only [hitem]
  rw [if_pos (show True ∧ hdrBad qname.length data.length data = true from ⟨trivial, hbad⟩)]
  simp

theorem c9_trunc (ps B fuel : Nat) (qname data : List Nat)
    (hB : HDRLEN + qname.length ≤ B) (hq : 0 < qname.length)
    (hdl : data.length < B) (hfuel : 2 ≤ fuel)
    (hgood : hdrBad qname.length data.length data = false)
    (hname : namesEq qname data = true)
    (hlast : 1 ≤ nrParts ps (HDRLEN + nameLenOf data + valLenOf data) - 1) :
    get_next_named [(⟨xhash qname, 0, 0⟩, data)] ps B fuel qname =
      some (.error .eio) := by
  unfold get_next_named
  rw [if_neg (by omega)]
  obtain ⟨f, rfl⟩ : ∃ f, fuel = f + 2 := ⟨fuel - 2, by omega⟩
  show get_next_go _ ps qname (xhash qname) B (f + 1 + 1) (xhash qname) 0 0 0 [] = _
  unfold get_next_go
  have hkq : keyLe ⟨xhash qname, 0, 0⟩ ⟨xhash qname, 0, 0⟩ = true := by
    rw [keyLe_same]
    simp
  have hkl : keyLe ⟨xhash qname, 0, 0⟩ lastKey = true :=
    keyLe_last _ (xhash_le qname) (by show (0 : Nat) < U64MAX; unfold U64MAX; omega)
  have hitem : item_next [(⟨xhash qname, 0, 0⟩, data)] ⟨xhash qname, 0, 0⟩ lastKey
      (B - ([] : List Nat).length) = some (⟨xhash qname, 0, 0⟩, data) := by
    unfold item_next
    rw [find?_cons_eq]
    rw [if_pos (by
      show (keyLe ⟨xhash qname, 0, 0⟩ ⟨xhash qname, 0, 0⟩ &&
        keyLe ⟨xhash qname, 0, 0⟩ lastKey) = true
      rw [hkq, hkl]
      rfl)]
    have htake : data.take (B - ([] : List Nat).length) = data := by
      apply List.take_of_length_le
      simp only [List.length_nil, Nat.sub_zero]
      omega
    simp [htake]
    omega
  simp only [hitem]
  rw [if_neg (show ¬((0 : Nat) ≠ 0) from by simp)]
  rw [if_neg (show ¬(True ∧ hdrBad qname.length data.length data = true) from by
    simp [hgood])]
  rw [if_neg (show ¬(True ∧ 0 < qname.length ∧ xhash qname ≠ xhash qname) from by
    simp)]
  rw [if_neg (show ¬(True ∧ 0 < qname.length ∧ namesEq qname data = false) from by
    simp [hname])]
  rw [if_pos (show True ∧ 0 < qname.length from ⟨trivial, hq⟩)]
  rw [if_neg (show ¬((([] : List Nat) ++ data).length = B ∨
      (0 : Nat) = nrParts ps (HDRLEN + nameLenOf data + valLenOf data) - 1) from by
    push_neg
    constructor
    · simp only [List.nil_append]
      omega
    · omega)]
  show get_next_go [(⟨xhash qname, 0, 0⟩, data)] ps qname (xhash qname) B (f + 1)
      (xhash qname) 0 1 (nrParts ps (HDRLEN + nameLenOf data + valLenOf data) - 1) data =
    some (.error .eio)
  unfold get_next_go
  have hitem1 : item_next [(⟨xhash qname, 0, 0⟩, data)] ⟨xhash qname, 0, 1⟩ lastKey
      (B - data.length) = none := by
    unfold item_next
    rw [find?_cons_eq]
    rw [if_neg (by
      show ¬((keyLe ⟨xhash qname, 0, 1⟩ ⟨xhash qname, 0, 0⟩ &&
        keyLe ⟨xhash qname, 0, 0⟩ lastKey) = true)
      rw [keyLe_same]
      simp)]
    rfl
  simp only [hitem1]
  rfl

theorem c9_gap (ps B fuel : Nat) (qname d0 d2 : List Nat)
    (hB : HDRLEN + qname.length ≤ B) (hq : 0 < qname.length)
    (hdl : d0.length < B) (hfuel : 2 ≤ fuel)
    (hgood : hdrBad qname.length d0.length d0 = false)
    (hname : namesEq qname d0 = true)
    (hlast : 1 ≤ nrParts ps (HDRLEN + nameLenOf d0 + valLenOf d0) - 1) :
    get_next_named [(⟨xhash qname, 0, 0⟩, d0), (⟨xhash qname, 0, 2⟩, d2)] ps B fuel qname =
      some (.error .eio) := by
  unfold get_next_named
  rw [if_neg (by omega)]
  obtain ⟨f, rfl⟩ : ∃ f, fuel = f + 2 := ⟨fuel - 2, by omega⟩
  show get_next_go _ ps qname (xhash qname) B (f + 1 + 1) (xhash qname) 0 0 0 [] = _
  unfold get_next_go
  have hkq : keyLe ⟨xhash qname, 0, 0⟩ ⟨xhash qname, 0, 0⟩ = true := by
    rw [keyLe_same]
    simp
  have hkl : keyLe ⟨xhash qname, 0, 0⟩ lastKey = true :=
    keyLe_last _ (xhash_le qname) (by show (0 : Nat) < U64MAX; unfold U64MAX; omega)
  have hkl2 : keyLe ⟨xhash qname, 0, 2⟩ lastKey = true :=
    keyLe_last _ (xhash_le qname) (by show (0 : Nat) < U64MAX; unfold U64MAX; omega)
  have hitem : item_next [(⟨xhash qname, 0, 0⟩, d0), (⟨xhash qname, 0, 2⟩, d2)]
      ⟨xhash qname, 0, 0⟩ lastKey (B - ([] : List Nat).length) =
      some (⟨xhash qname, 0, 0⟩, d0) := by
    unfold item_next
    rw [find?_cons_eq]
    rw [if_pos (by
      show (keyLe ⟨xhash qname, 0, 0⟩ ⟨xhash qname, 0, 0⟩ &&
        keyLe ⟨xhash qname, 0, 0⟩ lastKey) = true
      rw [hkq, hkl]
      rfl)]
    have htake : d0.take (B - ([] : List Nat).length) = d0 := by
      apply List.take_of_length_le
      simp only [List.length_nil, Nat.sub_zero]
      omega
    simp [htake]
    omega
  simp only [hitem]
  rw [if_neg (show ¬((0 : Nat) ≠ 0) from by simp)]
  rw [if_neg (show ¬(True ∧ hdrBad qname.length d0.length d0 = true) from by
    simp [hgood])]
  rw [if_neg (show ¬(True ∧ 0 < qname.length ∧ xhash qname ≠ xhash qname) from by
    simp)]
  rw [if_neg (show ¬(True ∧ 0 < qname.length ∧ namesEq qname d0 = false) from by
    simp [hname])]
  rw [if_pos (show True ∧ 0 < qname.length from ⟨trivial, hq⟩)]
  rw [if_neg (show ¬((([] : List Nat) ++ d0).length = B ∨
      (0 : Nat) = nrParts ps (HDRLEN + nameLenOf d0 + valLenOf d0) - 1) from by
    push_neg
    constructor
    · simp only [List.nil_append]
      omega
    · omega)]
  show get_next_go [(⟨xhash qname, 0, 0⟩, d0), (⟨xhash qname, 0, 2⟩, d2)] ps qname
      (xhash qname) B (f + 1) (xhash qname) 0 1
      (nrParts ps (HDRLEN + nameLenOf d0 + valLenOf d0) - 1) d0 =
    some (.error .eio)
  unfold get_next_go
  have hitem1 : item_next [(⟨xhash qname, 0, 0⟩, d0), (⟨xhash qname, 0, 2⟩, d2)]
      ⟨xhash qname, 0, 1⟩ lastKey (B - d0.length) =
      some (⟨xhash qname, 0, 2⟩, d2.take (B - d0.length)) := by
    unfold item_next
    rw [find?_cons_eq]
    rw [if_neg (by
      show ¬((keyLe ⟨xhash qname, 0, 1⟩ ⟨xhash qname, 0, 0⟩ &&
        keyLe ⟨xhash qname, 0, 0⟩ lastKey) = true)
      rw [keyLe_same]
      simp)]
    rw [find?_cons_eq]
    rw [if_pos (by
      show (keyLe ⟨xhash qname, 0, 1⟩ ⟨xhash qname, 0, 2⟩ &&
        keyLe ⟨xhash qname, 0, 2⟩ lastKey) = true
      rw [keyLe_same, hkl2]
      rfl)]
  simp only [hitem1]
  rw [if_pos (show (2 : Nat) ≠ 1 from by omega)]

/-- C9: consistency faults versus not-found in multi-part unpacking.
An empty candidate range is the only not-found case here: a lookup over
an empty store returns the not-found code (-ENOENT).  A part-0 buffer
failing the header range check, a store that runs out of parts after
part 0 of a multi-part attribute, and a part-index gap (the item after
part 0 carries part 2 where part 1 is expected) each return the
distinct consistency-fault code (-EIO). -/
theorem c9_fault_vs_notfound :
    (∀ (ps B fuel : Nat) (qname : List Nat), HDRLEN + qname.length ≤ B → 1 ≤ fuel →
      get_next_named [] ps B fuel qname = some (.error .enoent)) ∧
    (∀ (ps B fuel : Nat) (qname data : List Nat), HDRLEN + qname.length ≤ B →
      data.length ≤ B → 1 ≤ fuel → hdrBad qname.length data.length data = true →
      get_next_named [(⟨xhash qname, 0, 0⟩, data)] ps B fuel qname =
        some (.error .eio)) ∧
    (∀ (ps B fuel : Nat) (qname data : List Nat), HDRLEN + qname.length ≤ B →
      0 < qname.length → data.length < B → 2 ≤ fuel →
      hdrBad qname.length data.length data = false → namesEq qname data = true →
      1 ≤ nrParts ps (HDRLEN + nameLenOf data + valLenOf data) - 1 →
      get_next_named [(⟨xhash qname, 0, 0⟩, data)] ps B fuel qname =
        some (.error .eio)) ∧
    (∀ (ps B fuel : Nat) (qname d0 d2 : List Nat), HDRLEN + qname.length ≤ B →
      0 < qname.length → d0.length < B → 2 ≤ fuel →
      hdrBad qname.length d0.length d0 = false → namesEq qname d0 = true →
      1 ≤ nrParts ps (HDRLEN + nameLenOf d0 + valLenOf d0) - 1 →
      get_next_named [(⟨xhash qname, 0, 0⟩, d0), (⟨xhash qname, 0, 2⟩, d2)]
        ps B fuel qname = some (.error .eio)) :=
  ⟨c9_empty, c9_hdr, c9_trunc, c9_gap⟩

theorem c9_fault_vs_notfound_witness :
    get_next_named [] 6 16 2 [97] = some (.error .enoent) ∧
    get_next_named [(⟨xhash [97], 0, 0⟩, [0, 0, 0])] 6 16 2 [97] =
      some (.error .eio) ∧
    get_next_named [(⟨xhash [97], 0, 0⟩, [1, 9, 0, 0, 97])] 6 16 2 [97] =
      some (.error .eio) ∧
    get_next_named [(⟨xhash [97], 0, 0⟩, [1, 9, 0, 0, 97]), (⟨xhash [97], 0, 2⟩, [5, 5])]
      6 16 2 [97] = some (.error .eio) :=
  ⟨c9_fault_vs_notfound.1 6 16 2 [97] (by decide) (by decide),
   c9_fault_vs_notfound.2.1 6 16 2 [97] [0, 0, 0] (by decide) (by decide) (by decide)
     (by decide),
   c9_fault_vs_notfound.2.2.1 6 16 2 [97] [1, 9, 0, 0, 97] (by decide) (by decide)
     (by decide) (by decide) (by decide) (by decide) (by decide),
   c9_fault_vs_notfound.2.2.2 6 16 2 [97] [1, 9, 0, 0, 97] [5, 5] (by decide) (by decide)
     (by decide) (by decide) (by decide) (by decide) (by decide)⟩

end Scoutfs
